import Mathlib

/-!
Verification of the csa_lab_4 toolchain: a shallow embedding of the ISA
(`src/isa.py`), the datapath (`src/core/datapath.py`), the I/O controller
(`src/core/io.py`), the control unit (`src/core/cpu.py`), the trace emission
of the runner (`src/core/runner.py`) and the code generator
(`src/translator/codegen.py`), together with theorems settling the spec
claims about them.

Conventions of the embedding:
* Python unbounded integers are `Int`; values that the source keeps
  non-negative (masked stack words, memory cells, addresses) are `Nat`.
* Python `x & 0xFFFF_FFFF` on a possibly negative `x` is `(x % 2^32).toNat`
  (`Int.emod` is non-negative for a positive modulus, exactly like Python's
  `%` and `&`).
* Python lists used as stacks keep their top at the head of a Lean `List`.
* Python dicts used only through get/set/contains are association lists
  where insertion prepends (lookup sees the most recent binding, the same
  observable behaviour).
* `raise AssertionError` / `ValueError` / `NotImplementedError` becomes
  `Except Fault _` or `Option _` with `none`/`.error` on the raising paths.
-/

set_option maxRecDepth 100000

namespace Csa

/-! ## ISA (`src/isa.py`) -/

/-- The closed opcode set of `src/isa.py` (`class Opcode(IntEnum)`). -/
inductive Opcode where
  | NOP | PUSHI | LOAD | STORE | DUP | DROP | SWAP
  | ADD | SUB | MUL | DIV
  | LE
  | JMP | JZ | CALL | RET | IRET | EI | DI
  | IN | OUT
  | HALT
deriving DecidableEq, Repr

/-- The numeric value of each opcode, as in the `IntEnum`. -/
def Opcode.toNat : Opcode → Nat
  | .NOP => 0x00
  | .PUSHI => 0x01
  | .LOAD => 0x02
  | .STORE => 0x03
  | .DUP => 0x04
  | .DROP => 0x05
  | .SWAP => 0x06
  | .ADD => 0x10
  | .SUB => 0x11
  | .MUL => 0x12
  | .DIV => 0x13
  | .LE => 0x41
  | .JMP => 0x20
  | .JZ => 0x21
  | .CALL => 0x22
  | .RET => 0x23
  | .IRET => 0x24
  | .EI => 0x25
  | .DI => 0x26
  | .IN => 0x30
  | .OUT => 0x31
  | .HALT => 0xFF

/-- Python's `Opcode(n)` conversion: the defined values map to their opcode,
any other value raises `ValueError`, i.e. `none`. -/
def Opcode.ofNat? : Nat → Option Opcode
  | 0x00 => some .NOP
  | 0x01 => some .PUSHI
  | 0x02 => some .LOAD
  | 0x03 => some .STORE
  | 0x04 => some .DUP
  | 0x05 => some .DROP
  | 0x06 => some .SWAP
  | 0x10 => some .ADD
  | 0x11 => some .SUB
  | 0x12 => some .MUL
  | 0x13 => some .DIV
  | 0x41 => some .LE
  | 0x20 => some .JMP
  | 0x21 => some .JZ
  | 0x22 => some .CALL
  | 0x23 => some .RET
  | 0x24 => some .IRET
  | 0x25 => some .EI
  | 0x26 => some .DI
  | 0x30 => some .IN
  | 0x31 => some .OUT
  | 0xFF => some .HALT
  | _ => none

/-- `@dataclass class Instr: opcode; arg: int = 0`. -/
structure Instr where
  opcode : Opcode
  arg : Int
deriving DecidableEq, Repr

/-- Python `arg & 0x00FF_FFFF` on an arbitrary integer. -/
def mask24 (a : Int) : Nat := (a % (2 ^ 24 : Int)).toNat

/-- The 32-bit word of one instruction:
`((int(ins.opcode) & 0xFF) << 24) | (ins.arg & 0x00FF_FFFF)`. -/
def encodeWord (ins : Instr) : Nat :=
  ((ins.opcode.toNat &&& 0xFF) <<< 24) ||| mask24 ins.arg

/-- `encode`: each instruction becomes four little-endian bytes. -/
def encode : List Instr → List Nat
  | [] => []
  | ins :: rest =>
    let word := encodeWord ins
    (word &&& 0xFF) :: ((word >>> 8) &&& 0xFF) :: ((word >>> 16) &&& 0xFF) ::
      ((word >>> 24) &&& 0xFF) :: encode rest

/-- `decode`: consume the blob four bytes at a time (a trailing partial word
is discarded, like the `break` in the source); an undefined opcode byte makes
`Opcode(...)` raise, so the whole decode fails; the 24-bit argument is
sign-extended for `PUSHI` only. -/
def decode : List Nat → Option (List Instr)
  | b0 :: b1 :: b2 :: b3 :: rest =>
    let word := b0 ||| (b1 <<< 8) ||| (b2 <<< 16) ||| (b3 <<< 24)
    match Opcode.ofNat? ((word >>> 24) &&& 0xFF) with
    | none => none
    | some op =>
      let argN := word &&& 0x00FFFFFF
      let arg : Int :=
        if op = Opcode.PUSHI ∧ argN &&& 0x00800000 ≠ 0 then
          (argN : Int) - 2 ^ 24
        else (argN : Int)
      match decode rest with
      | none => none
      | some code => some (⟨op, arg⟩ :: code)
  | _ => some []

/-- `DEFAULT_NUM_VECTORS` from `src/isa.py`. -/
def DEFAULT_NUM_VECTORS : Nat := 8

/-- An instruction whose argument is in the canonical range of its 24-bit
encoding slot: signed for `PUSHI`, unsigned for every other opcode. -/
def ArgOk (ins : Instr) : Prop :=
  if ins.opcode = Opcode.PUSHI then -(2 ^ 23) ≤ ins.arg ∧ ins.arg < 2 ^ 23
  else 0 ≤ ins.arg ∧ ins.arg < 2 ^ 24

instance (ins : Instr) : Decidable (ArgOk ins) := by
  unfold ArgOk; infer_instance

theorem lor_shiftLeft_eq_add (x y k : Nat) (h : x < 2 ^ k) :
    x ||| (y <<< k) = y * 2 ^ k + x := by
  rw [Nat.lor_comm, Nat.shiftLeft_eq, Nat.mul_comm y (2 ^ k),
    ← Nat.mul_add_lt_is_or h y, Nat.mul_comm (2 ^ k) y]

theorem and_255_eq (x : Nat) : x &&& 0xFF = x % 256 := by
  have h : (0xFF : Nat) = 2 ^ 8 - 1 := rfl
  rw [h, Nat.and_pow_two_sub_one_eq_mod]

theorem and_mask24_eq (x : Nat) : x &&& 0x00FFFFFF = x % 2 ^ 24 := by
  have h : (0x00FFFFFF : Nat) = 2 ^ 24 - 1 := rfl
  rw [h, Nat.and_pow_two_sub_one_eq_mod]

theorem bytes_roundtrip (w : Nat) (hw : w < 2 ^ 32) :
    (w &&& 0xFF) ||| (((w >>> 8) &&& 0xFF) <<< 8) ||| (((w >>> 16) &&& 0xFF) <<< 16) |||
      (((w >>> 24) &&& 0xFF) <<< 24) = w := by
  rw [and_255_eq, and_255_eq, and_255_eq, and_255_eq,
    Nat.shiftRight_eq_div_pow, Nat.shiftRight_eq_div_pow, Nat.shiftRight_eq_div_pow,
    lor_shiftLeft_eq_add _ _ 8 (by omega),
    lor_shiftLeft_eq_add _ _ 16 (by omega),
    lor_shiftLeft_eq_add _ _ 24 (by omega)]
  omega

theorem topByte_of_bytes (b0 b1 b2 b3 : Nat) (h0 : b0 < 256) (h1 : b1 < 256)
    (h2 : b2 < 256) (h3 : b3 < 256) :
    ((b0 ||| (b1 <<< 8) ||| (b2 <<< 16) ||| (b3 <<< 24)) >>> 24) &&& 0xFF = b3 := by
  rw [lor_shiftLeft_eq_add _ _ 8 (by omega),
    lor_shiftLeft_eq_add _ _ 16 (by omega),
    lor_shiftLeft_eq_add _ _ 24 (by omega),
    and_255_eq, Nat.shiftRight_eq_div_pow]
  omega

theorem Opcode.toNat_lt (op : Opcode) : op.toNat < 256 := by
  cases op <;> decide

theorem Opcode.ofNat?_toNat (op : Opcode) : Opcode.ofNat? op.toNat = some op := by
  cases op <;> rfl

theorem mask24_lt (a : Int) : mask24 a < 2 ^ 24 := by
  unfold mask24
  have h1 : a % (2 ^ 24 : Int) < 2 ^ 24 := Int.emod_lt_of_pos a (by norm_num)
  omega

theorem encodeWord_eq (ins : Instr) :
    encodeWord ins = 2 ^ 24 * ins.opcode.toNat + mask24 ins.arg := by
  unfold encodeWord
  have hlt := Opcode.toNat_lt ins.opcode
  have hm := mask24_lt ins.arg
  rw [and_255_eq, Nat.mod_eq_of_lt hlt, Nat.shiftLeft_eq,
    Nat.mul_comm ins.opcode.toNat (2 ^ 24), ← Nat.mul_add_lt_is_or hm]

theorem encodeWord_lt (ins : Instr) : encodeWord ins < 2 ^ 32 := by
  rw [encodeWord_eq]
  have hlt := Opcode.toNat_lt ins.opcode
  have hm := mask24_lt ins.arg
  omega

theorem encodeWord_topByte (ins : Instr) :
    ((encodeWord ins) >>> 24) &&& 0xFF = ins.opcode.toNat := by
  rw [encodeWord_eq, and_255_eq, Nat.shiftRight_eq_div_pow]
  have hlt := Opcode.toNat_lt ins.opcode
  have hm := mask24_lt ins.arg
  omega

theorem encodeWord_arg (ins : Instr) :
    encodeWord ins &&& 0x00FFFFFF = mask24 ins.arg := by
  rw [encodeWord_eq, and_mask24_eq]
  have hm := mask24_lt ins.arg
  omega

/-- One decode step over the four bytes that `encode` emits for `ins`. -/
theorem decode_encode_cons (ins : Instr) (rest : List Instr)
    (hok : ArgOk ins) (hrest : decode (encode rest) = some rest) :
    decode (encode (ins :: rest)) = some (ins :: rest) := by
  show decode ((encodeWord ins &&& 0xFF) :: ((encodeWord ins >>> 8) &&& 0xFF) ::
    ((encodeWord ins >>> 16) &&& 0xFF) :: ((encodeWord ins >>> 24) &&& 0xFF) ::
    encode rest) = some (ins :: rest)
  rw [decode]
  rw [bytes_roundtrip (encodeWord ins) (encodeWord_lt ins)]
  rw [encodeWord_topByte ins, Opcode.ofNat?_toNat ins.opcode]
  simp only [encodeWord_arg, hrest]
  by_cases hp : ins.opcode = Opcode.PUSHI
  · replace hok : -(2 ^ 23) ≤ ins.arg ∧ ins.arg < 2 ^ 23 := by
      unfold ArgOk at hok; rwa [if_pos hp] at hok
    by_cases hneg : ins.arg < 0
    · have hmod : ins.arg % (2 ^ 24 : Int) = ins.arg + 2 ^ 24 := by omega
      have hM : mask24 ins.arg = (ins.arg + 2 ^ 24).toNat := by
        unfold mask24; rw [hmod]
      have hge : 2 ^ 23 ≤ mask24 ins.arg := by rw [hM]; omega
      have hlt : mask24 ins.arg < 2 ^ 24 := mask24_lt ins.arg
      have hbit : mask24 ins.arg &&& 0x00800000 ≠ 0 := by
        have he : (0x00800000 : Nat) = 2 ^ 23 := rfl
        rw [he, Nat.and_two_pow]
        have ht : (mask24 ins.arg).testBit 23 = true := by
          rw [Nat.testBit_to_div_mod]
          simp only [decide_eq_true_eq]
          omega
        simp [ht]
      rw [if_pos ⟨hp, hbit⟩]
      have harg : ((mask24 ins.arg : Int)) - 2 ^ 24 = ins.arg := by
        rw [hM]; omega
      rw [harg]
    · have h0 : (0 : Int) ≤ ins.arg := by omega
      have hmod : ins.arg % (2 ^ 24 : Int) = ins.arg := by omega
      have hM : mask24 ins.arg = ins.arg.toNat := by
        unfold mask24; rw [hmod]
      have hsmall : mask24 ins.arg < 2 ^ 23 := by rw [hM]; omega
      have hbit : mask24 ins.arg &&& 0x00800000 = 0 := by
        have he : (0x00800000 : Nat) = 2 ^ 23 := rfl
        rw [he, Nat.and_two_pow]
        simp [Nat.testBit_lt_two_pow hsmall]
      rw [if_neg (by simp [hbit])]
      have harg : ((mask24 ins.arg : Int)) = ins.arg := by rw [hM]; omega
      rw [harg]
  · replace hok : 0 ≤ ins.arg ∧ ins.arg < 2 ^ 24 := by
      unfold ArgOk at hok; rwa [if_neg hp] at hok
    have hmod : ins.arg % (2 ^ 24 : Int) = ins.arg := by omega
    have hM : mask24 ins.arg = ins.arg.toNat := by
      unfold mask24; rw [hmod]
    rw [if_neg (by intro hc; exact hp hc.1)]
    have harg : ((mask24 ins.arg : Int)) = ins.arg := by rw [hM]; omega
    rw [harg]

/-- C3. For every instruction list whose arguments fit their 24-bit encoding
slot (signed for `PUSHI`, unsigned for the rest), encoding to the 4-byte
little-endian binary and decoding it back yields the same instruction list:
`PUSHI` immediates come back sign-extended from their 24-bit encoding and all
other arguments come back as unsigned 24-bit values. -/
theorem c3_encode_decode_roundtrip (l : List Instr) (h : ∀ ins ∈ l, ArgOk ins) :
    decode (encode l) = some l := by
  induction l with
  | nil => rfl
  | cons ins rest ih =>
    exact decode_encode_cons ins rest (h ins (by simp))
      (ih fun i hi => h i (by simp [hi]))

/-- Witness for C3 at a concrete list containing a negative `PUSHI`
immediate, a jump and a plain instruction. -/
theorem c3_encode_decode_roundtrip_witness :
    (∀ ins ∈ [Instr.mk Opcode.PUSHI (-5), Instr.mk Opcode.JMP 10,
        Instr.mk Opcode.HALT 0], ArgOk ins) ∧
    decode (encode [Instr.mk Opcode.PUSHI (-5), Instr.mk Opcode.JMP 10,
        Instr.mk Opcode.HALT 0]) =
      some [Instr.mk Opcode.PUSHI (-5), Instr.mk Opcode.JMP 10,
        Instr.mk Opcode.HALT 0] :=
  ⟨by decide, c3_encode_decode_roundtrip _ (by decide)⟩

/-- C10. If a blob of bytes contains a complete 4-byte word whose top byte is
not one of the 22 defined opcode values, `decode` fails (returns `none`,
modelling the uncaught `ValueError` of `Opcode(...)`) instead of skipping the
word or mapping it to an instruction. -/
theorem c10_decode_rejects_undefined_opcode (blob : List Nat)
    (hb : ∀ b ∈ blob, b < 256) (i b : Nat)
    (hg : blob.get? (4 * i + 3) = some b) (hbad : Opcode.ofNat? b = none) :
    decode blob = none := by
  induction i generalizing blob with
  | zero =>
    have hlen : 4 * 0 + 3 < blob.length := (List.get?_eq_some.mp hg).1
    rcases blob with _ | ⟨b0, _ | ⟨b1, _ | ⟨b2, _ | ⟨b3, rest⟩⟩⟩⟩
    · simp only [List.length_nil] at hlen; omega
    · simp only [List.length_cons, List.length_nil] at hlen; omega
    · simp only [List.length_cons, List.length_nil] at hlen; omega
    · simp only [List.length_cons, List.length_nil] at hlen; omega
    · have hb3 : b3 = b := by
        have h3 : (b0 :: b1 :: b2 :: b3 :: rest).get? (4 * 0 + 3) = some b3 := rfl
        rw [h3] at hg
        exact Option.some.inj hg
      rw [decode]
      have htop := topByte_of_bytes b0 b1 b2 b3
        (hb b0 (by simp)) (hb b1 (by simp)) (hb b2 (by simp)) (hb b3 (by simp))
      rw [htop, hb3, hbad]
  | succ i ih =>
    have hlen : 4 * (i + 1) + 3 < blob.length := (List.get?_eq_some.mp hg).1
    rcases blob with _ | ⟨b0, _ | ⟨b1, _ | ⟨b2, _ | ⟨b3, rest⟩⟩⟩⟩
    · simp only [List.length_nil] at hlen; omega
    · simp only [List.length_cons, List.length_nil] at hlen; omega
    · simp only [List.length_cons, List.length_nil] at hlen; omega
    · simp only [List.length_cons, List.length_nil] at hlen; omega
    · have hrest : decode rest = none := by
        refine ih rest (fun x hx => hb x (by simp [hx])) ?_
        have harith : 4 * (i + 1) + 3 = ((((4 * i + 3) + 1) + 1) + 1) + 1 := by ring
        rw [harith] at hg
        simpa only [List.get?_cons_succ] using hg
      rw [decode]
      cases Opcode.ofNat? (((b0 ||| (b1 <<< 8) ||| (b2 <<< 16) ||| (b3 <<< 24)) >>> 24) &&& 0xFF) with
      | none => rfl
      | some op => simp [hrest]

/-- Witness for C10: a blob whose single complete word has undefined top
byte `0x99`. -/
theorem c10_decode_rejects_undefined_opcode_witness :
    (∀ b ∈ [0, 0, 0, 0x99], b < 256) ∧
    ([0, 0, 0, (0x99 : Nat)].get? (4 * 0 + 3) = some 0x99) ∧
    Opcode.ofNat? 0x99 = none ∧
    decode [0, 0, 0, 0x99] = none :=
  ⟨by decide, by decide, by decide,
    c10_decode_rejects_undefined_opcode [0, 0, 0, 0x99] (by decide) 0 0x99
      (by decide) (by decide)⟩

/-! ## I/O controller (`src/core/io.py`) -/

/-- `@dataclass class IOEvent: tick; port; value`. -/
structure IOEvent where
  tick : Nat
  port : Int
  value : Int
deriving DecidableEq, Repr

/-- Association-list lookup, modelling `dict.get`. -/
def alGet {α : Type} : List (Int × α) → Int → Option α
  | [], _ => none
  | (k, v) :: rest, key => if k = key then some v else alGet rest key

/-- Association-list update of an existing key (or append of a new one),
modelling `dict[k] = v` / `dict.setdefault`. -/
def alSet {α : Type} : List (Int × α) → Int → α → List (Int × α)
  | [], key, v => [(key, v)]
  | (k, w) :: rest, key, v =>
    if k = key then (k, v) :: rest else (k, w) :: alSet rest key v

/-- `dict.setdefault(k, []).append(x)`. -/
def alAppend {α : Type} (l : List (Int × List α)) (key : Int) (x : α) :
    List (Int × List α) :=
  alSet l key (((alGet l key).getD []) ++ [x])

/-- `class IOController`: per-port queues, a tick-indexed schedule and the
single pending-IRQ latch. The schedule is kept as the original event list;
the events delivered at tick `t` are those with `ev.tick = t`, in schedule
order, exactly the lists the constructor's dict would hold. -/
structure IOController where
  in_queues : List (Int × List Int)
  out_queues : List (Int × List Int)
  schedule : List IOEvent
  pending_irq : Option Int
deriving DecidableEq, Repr

def initIOController (schedule : List IOEvent) : IOController :=
  { in_queues := [], out_queues := [], schedule := schedule, pending_irq := none }

/-- `IOController.on_tick`: deliver every scheduled event of this tick into
its input queue; the first such event latches the pending IRQ if the latch
is empty. -/
def on_tick (ioc : IOController) (t : Nat) : IOController :=
  (ioc.schedule.filter (fun ev => ev.tick == t)).foldl
    (fun ioc ev =>
      { ioc with
        in_queues := alAppend ioc.in_queues ev.port ev.value
        pending_irq := match ioc.pending_irq with
          | none => some ev.port
          | some p => some p })
    ioc

/-- `IOController.ack_irq`. -/
def ack_irq (ioc : IOController) : IOController := { ioc with pending_irq := none }

/-- `IOController.read_port`: pop the head of the port's input queue, or
return 0 if the queue is absent or empty. -/
def read_port (ioc : IOController) (port : Int) : Int × IOController :=
  match alGet ioc.in_queues port with
  | none => (0, ioc)
  | some [] => (0, ioc)
  | some (x :: rest) => (x, { ioc with in_queues := alSet ioc.in_queues port rest })

/-- `IOController.write_port`. -/
def write_port (ioc : IOController) (port : Int) (value : Int) : IOController :=
  { ioc with out_queues := alAppend ioc.out_queues port value }

/-! ## Datapath (`src/core/datapath.py`) -/

/-- Failure modes of the machine embedding: `dmConflict` is the
`assert self._mem_access is None, "dm conflict"` assertion; `badState`
covers the other `raise AssertionError` paths and out-of-range fetches. -/
inductive Fault where
  | dmConflict
  | badState
deriving DecidableEq, Repr

/-- The `'r'` / `'w'` marker stored in `DataPath._mem_access`. -/
inductive MemAcc where
  | read
  | write
deriving DecidableEq, Repr

/-- `class DataPath` state (the I/O controller it references is threaded
separately). The operand stack keeps its top at the head. -/
structure DataPath where
  mem : List Nat
  stack : List Nat
  t : Nat
  s : Nat
  ar : Nat
  io_reg : Nat
  zero : Bool
  sign : Bool
  last_mem_read : Nat
  last_mem_write : Nat
  last_alu : Nat
  mem_access : Option MemAcc
deriving DecidableEq, Repr

def initDataPath (data_words : Nat) : DataPath :=
  { mem := List.replicate (max 1 data_words) 0, stack := [], t := 0, s := 0,
    ar := 0, io_reg := 0, zero := true, sign := false, last_mem_read := 0,
    last_mem_write := 0, last_alu := 0, mem_access := none }

/-- `DataPath.tick_begin`. -/
def tick_begin (dp : DataPath) : DataPath := { dp with mem_access := none }

/-- `DataPath._refresh_tz`: recompute `t`, `s`, `zero`, `sign` from the
stack. -/
def refresh_tz (dp : DataPath) : DataPath :=
  let t : Nat := match dp.stack with
    | [] => 0
    | x :: _ => x &&& 0xFFFFFFFF
  let s : Nat := match dp.stack with
    | _ :: y :: _ => y &&& 0xFFFFFFFF
    | _ => 0
  { dp with
    t := t
    s := s
    zero := decide ((t &&& 0xFFFFFFFF) = 0)
    sign := decide ((t &&& 0x80000000) ≠ 0) }

/-- `DataPath.data_push`: push `value & 0xFFFF_FFFF` and refresh flags. -/
def data_push (dp : DataPath) (value : Int) : DataPath :=
  refresh_tz { dp with stack := (value % (2 ^ 32 : Int)).toNat :: dp.stack }

/-- `DataPath.data_pop`: pop the top (0 if empty) and refresh flags. -/
def data_pop (dp : DataPath) : Nat × DataPath :=
  match dp.stack with
  | [] => (0, refresh_tz dp)
  | v :: rest => (v, refresh_tz { dp with stack := rest })

/-- The four sources of `DataPath.latch_t_push`. -/
inductive PushSrc where
  | lit
  | mem
  | alu
  | io
deriving DecidableEq, Repr

/-- `DataPath.latch_t_push`: push from a named source; only `lit` uses
the supplied value. -/
def latch_t_push (dp : DataPath) (src : PushSrc) (value : Int) : DataPath :=
  match src with
  | .lit => data_push dp value
  | .mem => data_push dp (dp.last_mem_read : Int)
  | .alu => data_push dp (dp.last_alu : Int)
  | .io => data_push dp (dp.io_reg : Int)

/-- `DataPath.latch_ar_from_t`. -/
def latch_ar_from_t (dp : DataPath) : DataPath := { dp with ar := dp.t &&& 0xFFFFFFFF }

/-- `DataPath.latch_ar_from_lit`. -/
def latch_ar_from_lit (dp : DataPath) (addr : Nat) : DataPath :=
  { dp with ar := addr &&& 0xFFFFFFFF }

/-- Lazy extension of the data memory up to index `idx`. -/
def memExtend (mem : List Nat) (idx : Nat) : List Nat :=
  if idx ≥ mem.length then mem ++ List.replicate (idx - mem.length + 1) 0 else mem

/-- `DataPath.dm_read`: fatal `dm conflict` if the memory was already
accessed this tick. -/
def dm_read (dp : DataPath) : Except Fault DataPath :=
  match dp.mem_access with
  | some _ => .error .dmConflict
  | none =>
    let mem := memExtend dp.mem dp.ar
    .ok { dp with
      mem := mem
      last_mem_read := (mem.getD dp.ar 0) &&& 0xFFFFFFFF
      mem_access := some .read }

/-- `DataPath.dm_write`. -/
def dm_write (dp : DataPath) (value : Nat) : Except Fault DataPath :=
  match dp.mem_access with
  | some _ => .error .dmConflict
  | none =>
    let mem := memExtend dp.mem dp.ar
    .ok { dp with
      mem := mem.set dp.ar (value &&& 0xFFFFFFFF)
      last_mem_write := value &&& 0xFFFFFFFF
      mem_access := some .write }

/-- `DataPath.latch_io_read`: read one value from the port into `io_reg`. -/
def latch_io_read (dp : DataPath) (ioc : IOController) (port : Int) :
    DataPath × IOController :=
  let (v, ioc) := read_port ioc port
  ({ dp with io_reg := (v % (2 ^ 32 : Int)).toNat }, ioc)

/-- `DataPath.latch_io_write_prepare`. -/
def latch_io_write_prepare (dp : DataPath) (value : Nat) : DataPath :=
  { dp with io_reg := value &&& 0xFFFFFFFF }

/-- `DataPath.io_write_commit`. -/
def io_write_commit (dp : DataPath) (ioc : IOController) (port : Int) : IOController :=
  write_port ioc port (dp.io_reg : Int)

/-- `DataPath.alu_compute`: compute on `a = s`, `b = t`, latch the result
and refresh the flags from it. Returns `none` on a non-ALU opcode (the
`raise AssertionError("unsupported alu op")` path). -/
def alu_compute (dp : DataPath) (op : Opcode) : Option DataPath :=
  let a := dp.s &&& 0xFFFFFFFF
  let b := dp.t &&& 0xFFFFFFFF
  let set : Nat → DataPath := fun r =>
    { dp with
      last_alu := r
      zero := decide ((r &&& 0xFFFFFFFF) = 0)
      sign := decide ((r &&& 0x80000000) ≠ 0) }
  match op with
  | .ADD => some (set ((a + b) &&& 0xFFFFFFFF))
  | .SUB => some (set ((((a : Int) - (b : Int)) % (2 ^ 32 : Int)).toNat))
  | .MUL => some (set ((a * b) &&& 0xFFFFFFFF))
  | .DIV => some (set (if b ≠ 0 then (a / b) &&& 0xFFFFFFFF else 0))
  | .LE => some (set (if a ≤ b then 1 else 0))
  | _ => none

/-! ## Control unit (`src/core/cpu.py`) -/

/-- The three phases of the micro-sequencer. -/
inductive Phase where
  | FETCH_IR
  | LATCH_PC
  | EXEC
deriving DecidableEq, Repr

/-- `class CPU`: control-unit state, with the datapath and the I/O
controller embedded as fields (the Python object graph shares the I/O
controller between `CPU` and `DataPath`; here it is threaded explicitly). -/
structure CPU where
  imem : List Instr
  dp : DataPath
  ioc : IOController
  rs : List Int
  pc : Int
  ir : Option Instr
  tick : Nat
  tick_limit : Nat
  num_vectors : Nat
  int_enabled : Bool
  in_isr : Bool
  phase : Phase
  step : Nat
  halted : Bool
  last_pc : Int
  last_ir : Option Instr
  tmp_addr : Nat
  tmp_val : Nat
  tmp_alu : Nat
deriving DecidableEq, Repr

/-- `CPU.__init__`. -/
def mkCPU (instr_mem : List Instr) (data_words : Nat) (schedule : List IOEvent)
    (tick_limit : Nat) : CPU :=
  { imem := instr_mem, dp := initDataPath data_words,
    ioc := initIOController schedule, rs := [], pc := 0, ir := none, tick := 0,
    tick_limit := tick_limit, num_vectors := DEFAULT_NUM_VECTORS,
    int_enabled := true, in_isr := false, phase := .FETCH_IR, step := 0,
    halted := false, last_pc := 0, last_ir := none, tmp_addr := 0, tmp_val := 0,
    tmp_alu := 0 }

/-- Python list indexing `l[i]` with negative-index wrap; out of range is an
`IndexError`, i.e. `none`. -/
def pyIndex (l : List Instr) (i : Int) : Option Instr :=
  if 0 ≤ i then l.get? i.toNat
  else if 0 ≤ (l.length : Int) + i then l.get? ((l.length : Int) + i).toNat
  else none

/-- `CPU.maybe_raise_irq`: dispatch a pending IRQ if interrupts are enabled
and no ISR is running; push `pc`, jump to the latched port number, enter ISR
state and acknowledge. -/
def maybe_raise_irq (m : CPU) : Option CPU :=
  if ¬ m.int_enabled ∨ m.in_isr then none
  else match m.ioc.pending_irq with
    | none => none
    | some irq =>
      some { m with
        rs := m.pc :: m.rs
        pc := irq
        in_isr := true
        ioc := ack_irq m.ioc }

/-- `CPU._finish_instruction`. -/
def finish_instruction (m : CPU) : CPU :=
  { m with phase := .FETCH_IR, step := 0, tick := m.tick + 1 }

/-- The shared 3-step schedule of `ADD/SUB/MUL/DIV/LE` inside
`CPU.step_tick`: compute, pop, pop-and-push-result. -/
def exec_alu (m : CPU) (op : Opcode) : Except Fault CPU :=
  if m.step = 0 then
    match alu_compute m.dp op with
    | none => .error .badState
    | some dp =>
      .ok { m with
        dp := dp
        tmp_alu := dp.last_alu
        step := 1
        tick := m.tick + 1 }
  else if m.step = 1 then
    .ok { m with dp := (data_pop m.dp).2, step := 2, tick := m.tick + 1 }
  else if m.step = 2 then
    let (_, dp) := data_pop m.dp
    .ok (finish_instruction
      { m with dp := latch_t_push dp .alu (m.tmp_alu : Int) })
  else .error .badState

/-- The `EXEC`-phase dispatch of `CPU.step_tick` on `(opcode, step)`; the
final `raise AssertionError("unknown or unhandled opcode")` is
`.error .badState`. -/
def exec_step (m : CPU) (op : Opcode) (arg : Int) : Except Fault CPU :=
  match op with
  | .NOP =>
    if m.step = 0 then .ok (finish_instruction m) else .error .badState
  | .PUSHI =>
    if m.step = 0 then
      .ok (finish_instruction { m with dp := latch_t_push m.dp .lit arg })
    else .error .badState
  | .DUP =>
    if m.step = 0 then
      .ok (finish_instruction { m with dp := data_push m.dp (m.dp.t : Int) })
    else .error .badState
  | .DROP =>
    if m.step = 0 then
      .ok (finish_instruction { m with dp := (data_pop m.dp).2 })
    else .error .badState
  | .SWAP =>
    if m.step = 0 then
      let (a, dp) := data_pop m.dp
      let (b, dp) := data_pop dp
      let dp := data_push dp (a : Int)
      let dp := data_push dp (b : Int)
      .ok (finish_instruction { m with dp := dp })
    else .error .badState
  | .ADD => exec_alu m .ADD
  | .SUB => exec_alu m .SUB
  | .MUL => exec_alu m .MUL
  | .DIV => exec_alu m .DIV
  | .LE => exec_alu m .LE
  | .LOAD =>
    if m.step = 0 then
      .ok { m with dp := latch_ar_from_t m.dp, step := 1, tick := m.tick + 1 }
    else if m.step = 1 then
      match dm_read m.dp with
      | .error e => .error e
      | .ok dp => .ok { m with dp := dp, step := 2, tick := m.tick + 1 }
    else if m.step = 2 then
      let (_, dp) := data_pop m.dp
      .ok (finish_instruction { m with dp := latch_t_push dp .mem 0 })
    else .error .badState
  | .STORE =>
    if m.step = 0 then
      let (a, dp) := data_pop m.dp
      .ok { m with
        dp := latch_ar_from_lit dp a
        tmp_addr := a
        step := 1
        tick := m.tick + 1 }
    else if m.step = 1 then
      let (v, dp) := data_pop m.dp
      .ok { m with
        dp := dp
        tmp_val := v
        step := 2
        tick := m.tick + 1 }
    else if m.step = 2 then
      match dm_write m.dp m.tmp_val with
      | .error e => .error e
      | .ok dp => .ok (finish_instruction { m with dp := dp })
    else .error .badState
  | .JMP =>
    if m.step = 0 then .ok (finish_instruction { m with pc := arg })
    else .error .badState
  | .JZ =>
    if m.step = 0 then
      let m := if m.dp.zero then { m with pc := arg } else m
      .ok (finish_instruction { m with dp := (data_pop m.dp).2 })
    else .error .badState
  | .CALL =>
    if m.step = 0 then
      .ok (finish_instruction { m with rs := m.pc :: m.rs, pc := arg })
    else .error .badState
  | .RET =>
    if m.step = 0 then
      match m.rs with
      | [] => .ok (finish_instruction m)
      | p :: rest => .ok (finish_instruction { m with pc := p, rs := rest })
    else .error .badState
  | .IRET =>
    if m.step = 0 then
      match m.rs with
      | [] => .ok (finish_instruction { m with in_isr := false })
      | p :: rest =>
        .ok (finish_instruction { m with pc := p, rs := rest, in_isr := false })
    else .error .badState
  | .EI =>
    if m.step = 0 then .ok (finish_instruction { m with int_enabled := true })
    else .error .badState
  | .DI =>
    if m.step = 0 then .ok (finish_instruction { m with int_enabled := false })
    else .error .badState
  | .IN =>
    if m.step = 0 then
      let (dp, ioc) := latch_io_read m.dp m.ioc arg
      .ok { m with dp := dp, ioc := ioc, step := 1, tick := m.tick + 1 }
    else if m.step = 1 then
      .ok (finish_instruction { m with dp := latch_t_push m.dp .io 0 })
    else .error .badState
  | .OUT =>
    if m.step = 0 then
      let (v, dp) := data_pop m.dp
      .ok { m with
        dp := latch_io_write_prepare dp v
        step := 1
        tick := m.tick + 1 }
    else if m.step = 1 then
      .ok (finish_instruction { m with ioc := io_write_commit m.dp m.ioc arg })
    else .error .badState
  | .HALT =>
    if m.step = 0 then .ok { m with halted := true, tick := m.tick + 1 }
    else .error .badState

/-- The phase dispatch of `CPU.step_tick` (after the per-tick resets):
possible IRQ dispatch at `FETCH_IR`, then one phase-step. -/
def step_phase (m : CPU) : Except Fault CPU :=
  match m.phase with
  | .FETCH_IR =>
    match maybe_raise_irq m with
    | some m2 => .ok { m2 with tick := m2.tick + 1 }
    | none =>
      match pyIndex m.imem m.pc with
      | none => .error .badState
      | some ins =>
        .ok { m with
          last_pc := m.pc
          ir := some ins
          last_ir := some ins
          phase := .LATCH_PC
          tick := m.tick + 1 }
  | .LATCH_PC =>
    .ok { m with pc := m.pc + 1, phase := .EXEC, step := 0, tick := m.tick + 1 }
  | .EXEC =>
    match m.ir with
    | none => .error .badState
    | some ins => exec_step m ins.opcode ins.arg

/-- `CPU.step_tick`: one tick — early return when halted, per-tick reset of
the memory-access flag, delivery of scheduled I/O, then the phase dispatch. -/
def step_tick (m : CPU) : Except Fault CPU :=
  if m.halted then .ok m
  else step_phase { m with dp := tick_begin m.dp, ioc := on_tick m.ioc m.tick }

/-- Iterated `step_tick` (the runner's loop body, without tracing). -/
def runN : Nat → CPU → Except Fault CPU
  | 0, m => .ok m
  | n + 1, m =>
    match step_tick m with
    | .error e => .error e
    | .ok m2 => runN n m2

/-- A machine state reachable by some number of ticks from a freshly
constructed machine. -/
def Reachable (m : CPU) : Prop :=
  ∃ code dw sched tl n, runN n (mkCPU code dw sched tl) = .ok m

/-- The top of the operand stack as the flags see it (0 when empty). -/
def dpT (dp : DataPath) : Nat :=
  match dp.stack with
  | [] => 0
  | x :: _ => x &&& 0xFFFFFFFF

/-- The `zero` flag agrees with the current top of stack. -/
def zeroOk (dp : DataPath) : Prop := dp.zero = decide (dpT dp = 0)

/-- The five opcodes dispatched to the ALU schedule. -/
def isAlu (op : Opcode) : Prop :=
  op = .ADD ∨ op = .SUB ∨ op = .MUL ∨ op = .DIV ∨ op = .LE

/-- The zero flag may disagree with the top of stack only in the middle of
an ALU instruction (between `alu_compute` and the first pop). -/
def Inv (m : CPU) : Prop :=
  zeroOk m.dp ∨
    (m.phase = .EXEC ∧ m.step = 1 ∧
      ∃ a op, m.ir = some ⟨op, a⟩ ∧ isAlu op)

theorem dpT_and_mask (dp : DataPath) : dpT dp &&& 0xFFFFFFFF = dpT dp := by
  unfold dpT
  cases dp.stack with
  | nil => rfl
  | cons x rest =>
    show (x &&& 0xFFFFFFFF) &&& 0xFFFFFFFF = x &&& 0xFFFFFFFF
    rw [Nat.and_assoc, Nat.and_self]

theorem zeroOk_refresh_tz (dp : DataPath) : zeroOk (refresh_tz dp) := by
  unfold zeroOk refresh_tz
  have hstack : (refresh_tz dp).stack = dp.stack := rfl
  cases h : dp.stack with
  | nil => simp [dpT, h]
  | cons x rest =>
    simp only [h]
    have : dpT (refresh_tz dp) = x &&& 0xFFFFFFFF := by
      unfold dpT refresh_tz
      simp [h]
    simp only [dpT, h, Nat.and_assoc, Nat.and_self]

theorem zeroOk_data_push (dp : DataPath) (v : Int) : zeroOk (data_push dp v) :=
  zeroOk_refresh_tz _

theorem zeroOk_data_pop (dp : DataPath) : zeroOk (data_pop dp).2 := by
  unfold data_pop
  cases h : dp.stack with
  | nil => exact zeroOk_refresh_tz _
  | cons x rest => exact zeroOk_refresh_tz _

theorem zeroOk_latch_t_push (dp : DataPath) (src : PushSrc) (v : Int) :
    zeroOk (latch_t_push dp src v) := by
  cases src <;> exact zeroOk_data_push _ _

theorem zeroOk_tick_begin (dp : DataPath) (h : zeroOk dp) : zeroOk (tick_begin dp) := h

theorem zeroOk_latch_ar_from_t (dp : DataPath) (h : zeroOk dp) :
    zeroOk (latch_ar_from_t dp) := h

theorem zeroOk_latch_ar_from_lit (dp : DataPath) (a : Nat) (h : zeroOk dp) :
    zeroOk (latch_ar_from_lit dp a) := h

theorem zeroOk_dm_read (dp dp2 : DataPath) (h : zeroOk dp)
    (hok : dm_read dp = .ok dp2) : zeroOk dp2 := by
  unfold dm_read at hok
  cases hma : dp.mem_access with
  | some a => rw [hma] at hok; cases hok
  | none =>
    rw [hma] at hok
    cases hok
    exact h

theorem zeroOk_dm_write (dp dp2 : DataPath) (v : Nat) (h : zeroOk dp)
    (hok : dm_write dp v = .ok dp2) : zeroOk dp2 := by
  unfold dm_write at hok
  cases hma : dp.mem_access with
  | some a => rw [hma] at hok; cases hok
  | none =>
    rw [hma] at hok
    cases hok
    exact h

theorem zeroOk_latch_io_read (dp : DataPath) (ioc : IOController) (p : Int)
    (h : zeroOk dp) : zeroOk (latch_io_read dp ioc p).1 := by
  unfold latch_io_read
  exact h

theorem zeroOk_latch_io_write_prepare (dp : DataPath) (v : Nat) (h : zeroOk dp) :
    zeroOk (latch_io_write_prepare dp v) := h

theorem zeroOk_init (dw : Nat) : zeroOk (initDataPath dw) := by
  unfold zeroOk dpT initDataPath
  simp

theorem zeroOk_of_inv_step_ne_one (m : CPU) (hInv : Inv m) (hst : m.step ≠ 1) :
    zeroOk m.dp := by
  rcases hInv with h | ⟨_, h2, _⟩
  · exact h
  · exact absurd h2 hst

theorem zeroOk_of_inv_nonalu (m : CPU) (op : Opcode) (arg : Int) (hInv : Inv m)
    (hir : m.ir = some ⟨op, arg⟩) (hna : ¬ isAlu op) : zeroOk m.dp := by
  rcases hInv with h | ⟨_, _, a, op2, hir2, halu⟩
  · exact h
  · rw [hir] at hir2
    simp only [Option.some.injEq, Instr.mk.injEq] at hir2
    exact absurd (hir2.1 ▸ halu) hna

/-- Invariant preservation through the `EXEC` dispatch. -/
theorem Inv_exec_step (m m2 : CPU) (op : Opcode) (arg : Int)
    (hph : m.phase = Phase.EXEC) (hir : m.ir = some ⟨op, arg⟩)
    (hInv : Inv m) (h : exec_step m op arg = .ok m2) : Inv m2 := by
  have zk0 : m.step = 0 → zeroOk m.dp := fun hs =>
    zeroOk_of_inv_step_ne_one m hInv (by omega)
  cases op with
  | NOP =>
    simp only [exec_step] at h
    split at h
    · cases h; exact Or.inl (zk0 (by assumption))
    · simp at h
  | PUSHI =>
    simp only [exec_step] at h
    split at h
    · cases h; exact Or.inl (zeroOk_latch_t_push _ _ _)
    · simp at h
  | DUP =>
    simp only [exec_step] at h
    split at h
    · cases h; exact Or.inl (zeroOk_data_push _ _)
    · simp at h
  | DROP =>
    simp only [exec_step] at h
    split at h
    · cases h; exact Or.inl (zeroOk_data_pop _)
    · simp at h
  | SWAP =>
    simp only [exec_step] at h
    split at h
    · cases h; exact Or.inl (zeroOk_data_push _ _)
    · simp at h
  | ADD =>
    simp only [exec_step, exec_alu] at h
    split at h
    · simp only [alu_compute] at h
      cases h
      exact Or.inr ⟨hph, rfl, arg, .ADD, hir, Or.inl rfl⟩
    · split at h
      · cases h; exact Or.inl (zeroOk_data_pop _)
      · split at h
        · cases h; exact Or.inl (zeroOk_latch_t_push _ _ _)
        · simp at h
  | SUB =>
    simp only [exec_step, exec_alu] at h
    split at h
    · simp only [alu_compute] at h
      cases h
      exact Or.inr ⟨hph, rfl, arg, .SUB, hir, Or.inr (Or.inl rfl)⟩
    · split at h
      · cases h; exact Or.inl (zeroOk_data_pop _)
      · split at h
        · cases h; exact Or.inl (zeroOk_latch_t_push _ _ _)
        · simp at h
  | MUL =>
    simp only [exec_step, exec_alu] at h
    split at h
    · simp only [alu_compute] at h
      cases h
      exact Or.inr ⟨hph, rfl, arg, .MUL, hir, Or.inr (Or.inr (Or.inl rfl))⟩
    · split at h
      · cases h; exact Or.inl (zeroOk_data_pop _)
      · split at h
        · cases h; exact Or.inl (zeroOk_latch_t_push _ _ _)
        · simp at h
  | DIV =>
    simp only [exec_step, exec_alu] at h
    split at h
    · simp only [alu_compute] at h
      cases h
      exact Or.inr ⟨hph, rfl, arg, .DIV, hir, Or.inr (Or.inr (Or.inr (Or.inl rfl)))⟩
    · split at h
      · cases h; exact Or.inl (zeroOk_data_pop _)
      · split at h
        · cases h; exact Or.inl (zeroOk_latch_t_push _ _ _)
        · simp at h
  | LE =>
    simp only [exec_step, exec_alu] at h
    split at h
    · simp only [alu_compute] at h
      cases h
      exact Or.inr ⟨hph, rfl, arg, .LE, hir, Or.inr (Or.inr (Or.inr (Or.inr rfl)))⟩
    · split at h
      · cases h; exact Or.inl (zeroOk_data_pop _)
      · split at h
        · cases h; exact Or.inl (zeroOk_latch_t_push _ _ _)
        · simp at h
  | LOAD =>
    have hz : zeroOk m.dp :=
      zeroOk_of_inv_nonalu m .LOAD arg hInv hir (by intro hc; rcases hc with h|h|h|h|h <;> simp at h)
    simp only [exec_step] at h
    split at h
    · cases h; exact Or.inl hz
    · split at h
      · cases hdm : dm_read m.dp with
        | error e => rw [hdm] at h; simp at h
        | ok dp2 =>
          rw [hdm] at h
          cases h
          exact Or.inl (zeroOk_dm_read _ _ hz hdm)
      · split at h
        · cases h; exact Or.inl (zeroOk_latch_t_push _ _ _)
        · simp at h
  | STORE =>
    have hz : zeroOk m.dp :=
      zeroOk_of_inv_nonalu m .STORE arg hInv hir (by intro hc; rcases hc with h|h|h|h|h <;> simp at h)
    simp only [exec_step] at h
    split at h
    · cases h; exact Or.inl (zeroOk_data_pop _)
    · split at h
      · cases h; exact Or.inl (zeroOk_data_pop _)
      · split at h
        · cases hdm : dm_write m.dp m.tmp_val with
          | error e => rw [hdm] at h; simp at h
          | ok dp2 =>
            rw [hdm] at h
            cases h
            exact Or.inl (zeroOk_dm_write _ _ _ hz hdm)
        · simp at h
  | JMP =>
    simp only [exec_step] at h
    split at h
    · cases h; exact Or.inl (zk0 (by assumption))
    · simp at h
  | JZ =>
    simp only [exec_step] at h
    split at h
    · cases h; exact Or.inl (zeroOk_data_pop _)
    · simp at h
  | CALL =>
    simp only [exec_step] at h
    split at h
    · cases h; exact Or.inl (zk0 (by assumption))
    · simp at h
  | RET =>
    simp only [exec_step] at h
    split at h
    · split at h <;> (cases h; exact Or.inl (zk0 (by assumption)))
    · simp at h
  | IRET =>
    simp only [exec_step] at h
    split at h
    · split at h <;> (cases h; exact Or.inl (zk0 (by assumption)))
    · simp at h
  | EI =>
    simp only [exec_step] at h
    split at h
    · cases h; exact Or.inl (zk0 (by assumption))
    · simp at h
  | DI =>
    simp only [exec_step] at h
    split at h
    · cases h; exact Or.inl (zk0 (by assumption))
    · simp at h
  | IN =>
    have hz : zeroOk m.dp :=
      zeroOk_of_inv_nonalu m .IN arg hInv hir (by intro hc; rcases hc with h|h|h|h|h <;> simp at h)
    simp only [exec_step] at h
    split at h
    · cases h; exact Or.inl (zeroOk_latch_io_read _ _ _ hz)
    · split at h
      · cases h; exact Or.inl (zeroOk_latch_t_push _ _ _)
      · simp at h
  | OUT =>
    have hz : zeroOk m.dp :=
      zeroOk_of_inv_nonalu m .OUT arg hInv hir (by intro hc; rcases hc with h|h|h|h|h <;> simp at h)
    simp only [exec_step] at h
    split at h
    · cases h; exact Or.inl (zeroOk_latch_io_write_prepare _ _ (zeroOk_data_pop _))
    · split at h
      · cases h; exact Or.inl hz
      · simp at h
  | HALT =>
    simp only [exec_step] at h
    split at h
    · cases h; exact Or.inl (zk0 (by assumption))
    · simp at h

theorem Inv_tick_begin (m : CPU) (hInv : Inv m) :
    Inv { m with dp := tick_begin m.dp, ioc := on_tick m.ioc m.tick } := by
  rcases hInv with h | ⟨h1, h2, a, op, hir, halu⟩
  · exact Or.inl h
  · exact Or.inr ⟨h1, h2, a, op, hir, halu⟩

/-- Invariant preservation through the phase dispatch. -/
theorem Inv_step_phase (m m2 : CPU) (hInv : Inv m) (h : step_phase m = .ok m2) :
    Inv m2 := by
  have hzk : m.phase ≠ Phase.EXEC → zeroOk m.dp := by
    intro hne
    rcases hInv with hz | ⟨h1, _, _⟩
    · exact hz
    · exact absurd h1 hne
  unfold step_phase at h
  cases hph : m.phase with
  | FETCH_IR =>
    rw [hph] at h
    cases hirq : maybe_raise_irq m with
    | some m3 =>
      rw [hirq] at h
      cases h
      unfold maybe_raise_irq at hirq
      split at hirq
      · cases hirq
      · split at hirq
        · cases hirq
        · cases hirq
          exact Or.inl (hzk (by rw [hph]; intro hc; cases hc))
    | none =>
      rw [hirq] at h
      cases hpi : pyIndex m.imem m.pc with
      | none => rw [hpi] at h; simp at h
      | some ins =>
        rw [hpi] at h
        cases h
        exact Or.inl (hzk (by rw [hph]; intro hc; cases hc))
  | LATCH_PC =>
    rw [hph] at h
    cases h
    exact Or.inl (hzk (by rw [hph]; intro hc; cases hc))
  | EXEC =>
    rw [hph] at h
    cases hir : m.ir with
    | none => rw [hir] at h; simp at h
    | some ins =>
      rw [hir] at h
      exact Inv_exec_step m m2 ins.opcode ins.arg hph (by rw [hir]) hInv h

/-- Invariant preservation through one tick. -/
theorem Inv_step (m m2 : CPU) (hInv : Inv m) (h : step_tick m = .ok m2) :
    Inv m2 := by
  unfold step_tick at h
  by_cases hh : m.halted
  · rw [if_pos hh] at h
    cases h
    exact hInv
  · rw [if_neg hh] at h
    exact Inv_step_phase _ m2 (Inv_tick_begin m hInv) h

theorem Inv_runN (n : Nat) (m m2 : CPU) (hInv : Inv m) (h : runN n m = .ok m2) :
    Inv m2 := by
  induction n generalizing m with
  | zero =>
    unfold runN at h
    cases h
    exact hInv
  | succ k ih =>
    unfold runN at h
    cases hs : step_tick m with
    | error e => rw [hs] at h; simp at h
    | ok m3 =>
      rw [hs] at h
      exact ih m3 (Inv_step m m3 hInv hs) h

theorem Inv_mkCPU (code : List Instr) (dw : Nat) (sched : List IOEvent)
    (tl : Nat) : Inv (mkCPU code dw sched tl) :=
  Or.inl (zeroOk_init dw)

theorem Inv_reachable (m : CPU) (h : Reachable m) : Inv m := by
  obtain ⟨code, dw, sched, tl, n, hrun⟩ := h
  exact Inv_runN n _ m (Inv_mkCPU code dw sched tl) hrun

theorem exec_step_no_dm_conflict (m : CPU) (op : Opcode) (arg : Int)
    (hma : m.dp.mem_access = none) :
    exec_step m op arg ≠ .error Fault.dmConflict := by
  intro hcon
  cases op <;> simp only [exec_step, exec_alu] at hcon <;>
    (repeat' split at hcon) <;> simp_all [dm_read, dm_write, alu_compute]

theorem step_phase_no_dm_conflict (m : CPU) (hma : m.dp.mem_access = none) :
    step_phase m ≠ .error Fault.dmConflict := by
  intro hcon
  unfold step_phase at hcon
  cases hph : m.phase with
  | FETCH_IR =>
    rw [hph] at hcon
    cases hirq : maybe_raise_irq m with
    | some m3 => rw [hirq] at hcon; simp at hcon
    | none =>
      rw [hirq] at hcon
      cases hpi : pyIndex m.imem m.pc with
      | none => rw [hpi] at hcon; simp at hcon
      | some ins => rw [hpi] at hcon; simp at hcon
  | LATCH_PC => rw [hph] at hcon; simp at hcon
  | EXEC =>
    rw [hph] at hcon
    cases hir : m.ir with
    | none => rw [hir] at hcon; simp at hcon
    | some ins =>
      rw [hir] at hcon
      exact exec_step_no_dm_conflict m ins.opcode ins.arg hma hcon

/-- C9. On every tick, at most one data-memory access happens: the per-tick
access flag is reset by `tick_begin` at the start of `step_tick`, every
micro-step performs at most one `dm_read` or `dm_write`, and hence the fatal
`dm conflict` assertion can never fire — for any machine state at all, one
tick never returns the `dmConflict` fault. -/
theorem c9_single_memory_access_per_tick (m : CPU) :
    step_tick m ≠ .error Fault.dmConflict := by
  intro hcon
  unfold step_tick at hcon
  by_cases hh : m.halted
  · rw [if_pos hh] at hcon; simp at hcon
  · rw [if_neg hh] at hcon
    exact step_phase_no_dm_conflict _ rfl hcon

theorem read_port_pending (ioc : IOController) (p : Int) :
    (read_port ioc p).2.pending_irq = ioc.pending_irq := by
  cases h : alGet ioc.in_queues p with
  | none => simp [read_port, h]
  | some q =>
    cases q with
    | nil => simp [read_port, h]
    | cons x r => simp [read_port, h]

theorem latch_io_read_pending (dp : DataPath) (ioc : IOController) (p : Int) :
    (latch_io_read dp ioc p).2.pending_irq = ioc.pending_irq := by
  have h : (latch_io_read dp ioc p).2 = (read_port ioc p).2 := rfl
  rw [h, read_port_pending]

/-- The `EXEC` dispatch never clears the pending IRQ latch. -/
theorem exec_step_pending (m m2 : CPU) (op : Opcode) (arg : Int)
    (h : exec_step m op arg = .ok m2) :
    m2.ioc.pending_irq = m.ioc.pending_irq := by
  cases op <;> simp only [exec_step, exec_alu] at h <;>
    (repeat' split at h) <;>
    first
      | (cases h; rfl)
      | (cases h; exact read_port_pending m.ioc _)
      | simp_all [alu_compute]

/-- Either the dispatch preconditions held at the start of the phase step,
or the pending IRQ latch is unchanged by it. -/
theorem step_phase_chr (m m2 : CPU) (h : step_phase m = .ok m2) :
    (m.phase = Phase.FETCH_IR ∧ m.int_enabled = true ∧ m.in_isr = false ∧
      ∃ p, m.ioc.pending_irq = some p) ∨
    m2.ioc.pending_irq = m.ioc.pending_irq := by
  unfold step_phase at h
  cases hph : m.phase with
  | FETCH_IR =>
    rw [hph] at h
    cases hirq : maybe_raise_irq m with
    | some m3 =>
      rw [hirq] at h
      cases h
      unfold maybe_raise_irq at hirq
      split at hirq
      · cases hirq
      · rename_i hcond
        cases hpd : m.ioc.pending_irq with
        | none => rw [hpd] at hirq; cases hirq
        | some p =>
          left
          refine ⟨rfl, ?_, ?_, p, rfl⟩
          · by_cases he : m.int_enabled
            · exact he
            · exact absurd (Or.inl he) hcond
          · by_cases hi : m.in_isr
            · exact absurd (Or.inr hi) hcond
            · simp at hi; exact hi
    | none =>
      rw [hirq] at h
      cases hpi : pyIndex m.imem m.pc with
      | none => rw [hpi] at h; simp at h
      | some ins =>
        rw [hpi] at h
        cases h
        right; rfl
  | LATCH_PC =>
    rw [hph] at h
    cases h
    right; rfl
  | EXEC =>
    rw [hph] at h
    cases hir : m.ir with
    | none => rw [hir] at h; simp at h
    | some ins =>
      rw [hir] at h
      right
      exact exec_step_pending m m2 ins.opcode ins.arg h

/-- When the dispatch preconditions hold, the phase step is exactly the IRQ
dispatch: push `pc`, jump to the latched port, enter ISR state, acknowledge,
consume the tick, fetch nothing. -/
theorem step_phase_dispatch (m : CPU) (p : Int) (hph : m.phase = Phase.FETCH_IR)
    (hen : m.int_enabled = true) (hisr : m.in_isr = false)
    (hp : m.ioc.pending_irq = some p) :
    step_phase m = .ok { m with
      rs := m.pc :: m.rs
      pc := p
      in_isr := true
      ioc := ack_irq m.ioc
      tick := m.tick + 1 } := by
  unfold step_phase
  rw [hph]
  have hmr : maybe_raise_irq m = some { m with
      rs := m.pc :: m.rs
      pc := p
      in_isr := true
      ioc := ack_irq m.ioc } := by
    unfold maybe_raise_irq
    rw [if_neg (by simp [hen, hisr]), hp]
  rw [hmr]
  simp
  exact hph

/-- C2. A pending IRQ is acknowledged by a tick exactly when that tick
starts in the `FETCH_IR` phase with `int_enabled` and not `in_isr`; and on
such a dispatch tick the old `pc` is pushed onto the return stack, `pc`
becomes the latched port number, `in_isr` is set, the IRQ is acknowledged
and the tick is consumed whole — `ir` and the phase are untouched, so no
instruction is fetched. -/
theorem c2_irq_dispatch_only_at_fetch (m m2 : CPU) (hh : m.halted = false)
    (hstep : step_tick m = .ok m2) :
    (((∃ p, (on_tick m.ioc m.tick).pending_irq = some p) ∧
        m2.ioc.pending_irq = none) ↔
      (m.phase = Phase.FETCH_IR ∧ m.int_enabled = true ∧ m.in_isr = false ∧
        ∃ p, (on_tick m.ioc m.tick).pending_irq = some p)) ∧
    (∀ p, (on_tick m.ioc m.tick).pending_irq = some p →
      m.phase = Phase.FETCH_IR → m.int_enabled = true → m.in_isr = false →
      m2 = { m with
        dp := tick_begin m.dp
        ioc := ack_irq (on_tick m.ioc m.tick)
        rs := m.pc :: m.rs
        pc := p
        in_isr := true
        tick := m.tick + 1 }) := by
  unfold step_tick at hstep
  rw [if_neg (by simp [hh])] at hstep
  have hdisp : ∀ p, (on_tick m.ioc m.tick).pending_irq = some p →
      m.phase = Phase.FETCH_IR → m.int_enabled = true → m.in_isr = false →
      m2 = { m with
        dp := tick_begin m.dp
        ioc := ack_irq (on_tick m.ioc m.tick)
        rs := m.pc :: m.rs
        pc := p
        in_isr := true
        tick := m.tick + 1 } := by
    intro p hp hph hen hisr
    have hd := step_phase_dispatch
      { m with dp := tick_begin m.dp, ioc := on_tick m.ioc m.tick } p hph hen hisr hp
    rw [hd] at hstep
    exact (Except.ok.inj hstep).symm
  refine ⟨⟨?_, ?_⟩, hdisp⟩
  · rintro ⟨⟨p, hp⟩, hnone⟩
    rcases step_phase_chr _ m2 hstep with ⟨h1, h2, h3, _⟩ | hpres
    · exact ⟨h1, h2, h3, p, hp⟩
    · rw [hpres, hp] at hnone
      cases hnone
  · rintro ⟨hph, hen, hisr, p, hp⟩
    refine ⟨⟨p, hp⟩, ?_⟩
    rw [hdisp p hp hph hen hisr]
    rfl

def c2wM : CPU := mkCPU [Instr.mk .NOP 0] 4 [IOEvent.mk 0 1 65] 100

def c2wM2 : CPU :=
  match step_tick c2wM with
  | .ok m => m
  | .error _ => c2wM

/-- Witness for C2: a machine whose schedule delivers a port-1 event at
tick 0, so the very first tick dispatches the interrupt. -/
theorem c2_irq_dispatch_only_at_fetch_witness :
    c2wM.halted = false ∧ step_tick c2wM = .ok c2wM2 ∧
    ((((∃ p, (on_tick c2wM.ioc c2wM.tick).pending_irq = some p) ∧
        c2wM2.ioc.pending_irq = none) ↔
      (c2wM.phase = Phase.FETCH_IR ∧ c2wM.int_enabled = true ∧
        c2wM.in_isr = false ∧
        ∃ p, (on_tick c2wM.ioc c2wM.tick).pending_irq = some p)) ∧
    (∀ p, (on_tick c2wM.ioc c2wM.tick).pending_irq = some p →
      c2wM.phase = Phase.FETCH_IR → c2wM.int_enabled = true →
      c2wM.in_isr = false →
      c2wM2 = { c2wM with
        dp := tick_begin c2wM.dp
        ioc := ack_irq (on_tick c2wM.ioc c2wM.tick)
        rs := c2wM.pc :: c2wM.rs
        pc := p
        in_isr := true
        tick := c2wM.tick + 1 })) :=
  ⟨rfl, rfl, c2_irq_dispatch_only_at_fetch c2wM c2wM2 rfl rfl⟩

/-- C7. Executing `RET` with an empty return stack leaves `pc` unchanged
(beyond the `LATCH_PC` increment that already happened) and execution
continues without a fault; executing `IRET` always clears `in_isr`, and with
an empty return stack it also leaves `pc` unchanged and continues. -/
theorem c7_ret_iret_empty_stack (m : CPU) (a : Int) (hh : m.halted = false)
    (hph : m.phase = Phase.EXEC) (hst : m.step = 0) :
    (m.ir = some ⟨Opcode.RET, a⟩ → m.rs = [] →
      ∃ m2, step_tick m = .ok m2 ∧ m2.pc = m.pc ∧ m2.halted = false ∧
        m2.phase = Phase.FETCH_IR) ∧
    (m.ir = some ⟨Opcode.IRET, a⟩ →
      ∃ m2, step_tick m = .ok m2 ∧ m2.in_isr = false ∧
        (m.rs = [] → m2.pc = m.pc ∧ m2.halted = false ∧
          m2.phase = Phase.FETCH_IR)) := by
  constructor
  · intro hir hrs
    have hstep : step_tick m = .ok (finish_instruction
        { m with dp := tick_begin m.dp, ioc := on_tick m.ioc m.tick }) := by
      unfold step_tick
      rw [if_neg (by simp [hh])]
      unfold step_phase
      simp [hph, hir, hst, hrs, exec_step]
    exact ⟨_, hstep, rfl, hh, rfl⟩
  · intro hir
    cases hrs : m.rs with
    | nil =>
      have hstep : step_tick m = .ok (finish_instruction
          { m with
            dp := tick_begin m.dp
            ioc := on_tick m.ioc m.tick
            in_isr := false }) := by
        unfold step_tick
        rw [if_neg (by simp [hh])]
        unfold step_phase
        simp [hph, hir, hst, hrs, exec_step]
      exact ⟨_, hstep, rfl, fun _ => ⟨rfl, hh, rfl⟩⟩
    | cons p rest =>
      have hstep : step_tick m = .ok (finish_instruction
          { m with
            dp := tick_begin m.dp
            ioc := on_tick m.ioc m.tick
            pc := p
            rs := rest
            in_isr := false }) := by
        unfold step_tick
        rw [if_neg (by simp [hh])]
        unfold step_phase
        simp [hph, hir, hst, hrs, exec_step]
      exact ⟨_, hstep, rfl, fun hcon => absurd hcon (by simp)⟩

def c7wM : CPU :=
  { mkCPU [Instr.mk .RET 0] 4 [] 100 with
    phase := Phase.EXEC, step := 0, ir := some (Instr.mk .RET 0), pc := 1 }

def c7wMi : CPU :=
  { mkCPU [Instr.mk .IRET 0] 4 [] 100 with
    phase := Phase.EXEC, step := 0, ir := some (Instr.mk .IRET 0), pc := 1,
    in_isr := true }

/-- Witness for C7: concrete machines about to execute `RET` and `IRET` with
an empty return stack. -/
theorem c7_ret_iret_empty_stack_witness :
    (∃ m2, step_tick c7wM = .ok m2 ∧ m2.pc = c7wM.pc ∧ m2.halted = false ∧
      m2.phase = Phase.FETCH_IR) ∧
    (∃ m2, step_tick c7wMi = .ok m2 ∧ m2.in_isr = false ∧
      (c7wMi.rs = [] → m2.pc = c7wMi.pc ∧ m2.halted = false ∧
        m2.phase = Phase.FETCH_IR)) :=
  ⟨(c7_ret_iret_empty_stack c7wM 0 rfl rfl rfl).1 rfl rfl,
    (c7_ret_iret_empty_stack c7wMi 0 rfl rfl rfl).2 rfl⟩

/-- C4. Executing `JZ` (reachable machine, `EXEC` step 0) always pops the
top of the data stack whether or not it branches; the branch condition is
the zero flag, which at that point equals the test `top-of-stack = 0` on the
stack as it stood before the pop; with an empty stack the zero flag is true,
`JZ` branches to its argument, and the pop returns 0. -/
theorem c4_jz_pops_and_branches_on_old_top (m : CPU) (a : Int)
    (hr : Reachable m) (hh : m.halted = false) (hph : m.phase = Phase.EXEC)
    (hst : m.step = 0) (hir : m.ir = some ⟨Opcode.JZ, a⟩) :
    ∃ m2, step_tick m = .ok m2 ∧
      m2.dp.stack = m.dp.stack.tail ∧
      m2.pc = (if dpT m.dp = 0 then a else m.pc) ∧
      (m.dp.stack = [] → m.dp.zero = true ∧ m2.pc = a ∧
        (data_pop m.dp).1 = 0) := by
  have hzk : m.dp.zero = decide (dpT m.dp = 0) := by
    rcases Inv_reachable m hr with hz | ⟨_, h2, _⟩
    · exact hz
    · rw [hst] at h2; cases h2
  have hstep : step_tick m = .ok (finish_instruction
      { (if m.dp.zero then
          { m with dp := tick_begin m.dp, ioc := on_tick m.ioc m.tick, pc := a }
        else
          { m with dp := tick_begin m.dp, ioc := on_tick m.ioc m.tick }) with
        dp := (data_pop (tick_begin m.dp)).2 }) := by
    unfold step_tick
    rw [if_neg (by simp [hh])]
    unfold step_phase
    simp only [hph, hir, hst]
    simp only [exec_step, if_pos rfl]
    cases hz : m.dp.zero <;> simp [hz, tick_begin]
  refine ⟨_, hstep, ?_, ?_, ?_⟩
  · show (data_pop (tick_begin m.dp)).2.stack = m.dp.stack.tail
    cases hs : m.dp.stack with
    | nil => simp [data_pop, tick_begin, refresh_tz, hs]
    | cons x rest => simp [data_pop, tick_begin, refresh_tz, hs]
  · show (if m.dp.zero then
        { m with dp := tick_begin m.dp, ioc := on_tick m.ioc m.tick, pc := a }
      else
        { m with dp := tick_begin m.dp, ioc := on_tick m.ioc m.tick }).pc =
      (if dpT m.dp = 0 then a else m.pc)
    rw [hzk]
    by_cases hz : dpT m.dp = 0 <;> simp [hz]
  · intro hempty
    have hdpt : dpT m.dp = 0 := by unfold dpT; rw [hempty]
    have hz : m.dp.zero = true := by rw [hzk, hdpt]; simp
    refine ⟨hz, ?_, ?_⟩
    · show (if m.dp.zero then
          { m with dp := tick_begin m.dp, ioc := on_tick m.ioc m.tick, pc := a }
        else
          { m with dp := tick_begin m.dp, ioc := on_tick m.ioc m.tick }).pc = a
      simp [hz]
    · simp [data_pop, hempty]

def c4wM : CPU :=
  match runN 2 (mkCPU [Instr.mk .JZ 5] 4 [] 100) with
  | .ok m => m
  | .error _ => mkCPU [] 0 [] 0

/-- Witness for C4: the machine two ticks into a program whose first
instruction is `JZ 5` — it has an empty stack, so `JZ` branches. -/
theorem c4_jz_pops_and_branches_on_old_top_witness :
    Reachable c4wM ∧
    ∃ m2, step_tick c4wM = .ok m2 ∧
      m2.dp.stack = c4wM.dp.stack.tail ∧
      m2.pc = (if dpT c4wM.dp = 0 then 5 else c4wM.pc) ∧
      (c4wM.dp.stack = [] → c4wM.dp.zero = true ∧ m2.pc = 5 ∧
        (data_pop c4wM.dp).1 = 0) :=
  ⟨⟨[Instr.mk .JZ 5], 4, [], 100, 2, rfl⟩,
    c4_jz_pops_and_branches_on_old_top c4wM 5
      ⟨[Instr.mk .JZ 5], 4, [], 100, 2, rfl⟩ rfl rfl rfl rfl⟩

/-! ## Runner trace (`src/core/runner.py`) -/

def phaseStr : Phase → String
  | .FETCH_IR => "FETCH_IR"
  | .LATCH_PC => "LATCH_PC"
  | .EXEC => "EXEC"

/-- Python attribute lookup on a `DataPath` object restricted to its
integer-valued attributes (`t`, `s`, `ar`, `io_reg`, and the latches) — the
attributes `DataPath.__init__` actually creates. Any other name raises
`AttributeError`, i.e. `none`. In particular `z` is not an attribute. -/
def dpAttrNat (dp : DataPath) : String → Option Nat
  | "t" => some dp.t
  | "s" => some dp.s
  | "ar" => some dp.ar
  | "io_reg" => some dp.io_reg
  | "last_mem_read" => some dp.last_mem_read
  | "last_mem_write" => some dp.last_mem_write
  | "last_alu" => some dp.last_alu
  | _ => none

def boolInt (b : Bool) : Nat := if b then 1 else 0

/-- The trace line `run_machine` builds each tick when tracing:
`f"t={tick} pc={pc} phase={phase} T={dp.t} S={dp.z} AR={dp.ar} ..."`.
Evaluating the f-string looks up each named attribute; the lookup of
`cpu.dp.z` goes through `dpAttrNat` because `z` is written as a `DataPath`
attribute in the source, and the whole line fails (`none`, the
`AttributeError`) if any lookup fails. -/
def traceLine (m : CPU) : Option String :=
  match dpAttrNat m.dp "t", dpAttrNat m.dp "z", dpAttrNat m.dp "ar" with
  | some tv, some sv, some arv =>
    some ("t=" ++ toString m.tick ++ " pc=" ++ toString m.pc ++
      " phase=" ++ phaseStr m.phase ++ " T=" ++ toString tv ++
      " S=" ++ toString sv ++ " AR=" ++ toString arv ++
      " zero=" ++ toString (boolInt m.dp.zero) ++
      " sign=" ++ toString (boolInt m.dp.sign) ++
      " in_isr=" ++ toString (boolInt m.in_isr) ++ "\n")
  | _, _, _ => none

/-- C8 (code bug). The claim says each traced tick emits one line whose `S`
field is the current second element of the data stack. The source instead
reads `cpu.dp.z` — an attribute `DataPath` never defines (the second of
stack is `dp.s`) — so building the trace line raises `AttributeError` on
every tick and no line of the claimed shape is ever produced: the
trace-line construction fails for every machine state. -/
theorem c8_trace_line_reads_missing_attribute (m : CPU) : traceLine m = none := rfl

/-! ## Code generator (`src/translator/codegen.py`), AST from
`src/translator/parser.py` -/

/-- `Expr` AST nodes: `IntLit`, `Var`, `BinOp`, `Call`. -/
inductive Expr where
  | intLit (value : Int)
  | var (name : String)
  | binOp (op : String) (a b : Expr)
  | call (name : String) (args : List Expr)

/-- `Stmt` AST nodes: `VarDecl(vtype, name)`, `Assign`, `While`, `If`,
`Break`, `PrintInt`, `PrintStr`, `PrintChar`, and `Call` used in statement
position. -/
inductive Stmt where
  | varDecl (vtype name : String)
  | assign (name : String) (expr : Expr)
  | whileS (cond : Expr) (body : List Stmt)
  | ifS (cond : Expr) (then_body : List Stmt) (else_body : Option (List Stmt))
  | breakS
  | printInt (expr : Expr)
  | printStr (text : String)
  | printChar (expr : Expr)
  | callS (name : String) (args : List Expr)

structure Func where
  name : String
  body : List Stmt

structure Program where
  functions : List Func

/-- String-keyed dict lookup (`dict.get` / `in`). -/
def sGet {α : Type} : List (String × α) → String → Option α
  | [], _ => none
  | (k, v) :: rest, key => if k = key then some v else sGet rest key

/-- String-keyed dict write; the new binding shadows any old one, which is
observationally `dict[k] = v`. -/
def sPut {α : Type} (l : List (String × α)) (k : String) (v : α) :
    List (String × α) :=
  (k, v) :: l

/-- `class Codegen` state. -/
structure Codegen where
  code : List Instr
  labels : List (String × Nat)
  vars : List (String × Nat)
  data_next : Nat
  break_stack : List (List Nat)
  var_types : List (String × String)
  array_bases : List (String × Nat)
  string_bases : List (String × Nat)
deriving DecidableEq, Repr

def initCodegen : Codegen :=
  { code := [], labels := [], vars := [], data_next := 0, break_stack := [],
    var_types := [], array_bases := [], string_bases := [] }

/-- `Codegen.emit`. -/
def emit (st : Codegen) (op : Opcode) (arg : Int) : Codegen :=
  { st with code := st.code ++ [⟨op, arg⟩] }

/-- `Codegen.alloc_var`: first allocation of a name reserves 2 words if its
recorded type is already `long`, otherwise 1 word; repeated calls return the
existing address. -/
def alloc_var (st : Codegen) (name : String) : Nat × Codegen :=
  match sGet st.vars name with
  | some a => (a, st)
  | none =>
    let addr := st.data_next
    let inc : Nat := if sGet st.var_types name = some "long" then 2 else 1
    (addr, { st with vars := sPut st.vars name addr, data_next := st.data_next + inc })

/-- `Codegen.alloc_buffer`. -/
def alloc_buffer (st : Codegen) (words : Nat) : Nat × Codegen :=
  (st.data_next, { st with data_next := st.data_next + words })

/-- `self.code[i].arg = v` (backpatching of a jump hole). -/
def setArg (st : Codegen) (i : Nat) (v : Int) : Codegen :=
  { st with code :=
      match st.code.get? i with
      | none => st.code
      | some ins => st.code.set i { ins with arg := v } }

/-- `Codegen.ensure_array_initialized`. -/
def ensure_array_initialized (st : Codegen) (name : String) (capacity : Nat) :
    Codegen :=
  match sGet st.array_bases name with
  | some _ => st
  | none =>
    let (base, st) := alloc_buffer st capacity
    let st := { st with array_bases := sPut st.array_bases name base }
    let (var_addr, st) := alloc_var st name
    let st := emit st .PUSHI (base : Int)
    let st := emit st .PUSHI (var_addr : Int)
    emit st .STORE 0

/-- The per-character initialisation loop of `_ensure_cstr_literal`. -/
def emitCstrInit : List Char → Nat → Codegen → Codegen
  | [], _, st => st
  | c :: rest, addr, st =>
    let st := emit st .PUSHI (c.toNat : Int)
    let st := emit st .PUSHI (addr : Int)
    let st := emit st .STORE 0
    emitCstrInit rest (addr + 1) st

/-- `Codegen._ensure_cstr_literal`. -/
def ensure_cstr_literal (st : Codegen) (text : String) : Nat × Codegen :=
  match sGet st.string_bases text with
  | some a => (a, st)
  | none =>
    let (base, st) := alloc_buffer st (text.length + 1)
    let st := emitCstrInit text.toList base st
    let st := emit st .PUSHI 0
    let st := emit st .PUSHI ((base + text.length : Nat) : Int)
    let st := emit st .STORE 0
    let var_name := "__strlit_" ++ toString st.string_bases.length
    let (var_addr, st) := alloc_var st var_name
    let st := emit st .PUSHI (base : Int)
    let st := emit st .PUSHI (var_addr : Int)
    let st := emit st .STORE 0
    (var_addr, { st with string_bases := sPut st.string_bases text var_addr })

/-- `Codegen._emit_print_cstr`. -/
def emit_print_cstr (st : Codegen) (addr : Nat) : Codegen :=
  let (ptr, st) := alloc_var st "__ptr__"
  let st := emit st .PUSHI (addr : Int)
  let st := emit st .LOAD 0
  let st := emit st .PUSHI (ptr : Int)
  let st := emit st .STORE 0
  let start := st.code.length
  let st := emit st .PUSHI (ptr : Int)
  let st := emit st .LOAD 0
  let st := emit st .LOAD 0
  let st := emit st .DUP 0
  let jz := st.code.length
  let st := emit st .JZ 0
  let st := emit st .OUT 1
  let st := emit st .PUSHI (ptr : Int)
  let st := emit st .LOAD 0
  let st := emit st .PUSHI 1
  let st := emit st .ADD 0
  let st := emit st .PUSHI (ptr : Int)
  let st := emit st .STORE 0
  let st := emit st .JMP (start : Int)
  let endp := st.code.length
  setArg st jz (endp : Int)

/-- The inline `readInt()` runtime of `gen_expr`. -/
def gen_readInt (st : Codegen) : Codegen :=
  let (tmp, st) := alloc_var st "__tmp__"
  let (ch, st) := alloc_var st "__ch__"
  let st := emit st .PUSHI 0
  let st := emit st .PUSHI (tmp : Int)
  let st := emit st .STORE 0
  let loop := st.code.length
  let st := emit st .IN 1
  let st := emit st .PUSHI (ch : Int)
  let st := emit st .STORE 0
  let st := emit st .PUSHI (ch : Int)
  let st := emit st .LOAD 0
  let st := emit st .PUSHI 10
  let st := emit st .SUB 0
  let jz := st.code.length
  let st := emit st .JZ 0
  let st := emit st .PUSHI (tmp : Int)
  let st := emit st .LOAD 0
  let st := emit st .PUSHI 10
  let st := emit st .MUL 0
  let st := emit st .PUSHI (ch : Int)
  let st := emit st .LOAD 0
  let st := emit st .PUSHI 48
  let st := emit st .SUB 0
  let st := emit st .ADD 0
  let st := emit st .PUSHI (tmp : Int)
  let st := emit st .STORE 0
  let st := emit st .JMP (loop : Int)
  let endp := st.code.length
  let st := setArg st jz (endp : Int)
  let st := emit st .PUSHI (tmp : Int)
  emit st .LOAD 0

/-- `gen_expr`: expression lowering; unsupported shapes raise, i.e. `none`. -/
def gen_expr : Expr → Codegen → Option Codegen
  | .intLit v, st => some (emit st .PUSHI (mask24 v : Int))
  | .var n, st =>
    let (addr, st) := alloc_var st n
    some (emit (emit st .PUSHI (addr : Int)) .LOAD 0)
  | .call n args, st =>
    if n = "readInt" then some (gen_readInt st)
    else if n = "readChar" then some (emit st .IN 1)
    else if n = "get" then
      match args with
      | [.var vn, idx] =>
        let st := ensure_array_initialized st vn 128
        let (base_addr, st) := alloc_var st vn
        let st := emit (emit st .PUSHI (base_addr : Int)) .LOAD 0
        match gen_expr idx st with
        | none => none
        | some st => some (emit (emit st .ADD 0) .LOAD 0)
      | _ => none
    else none
  | .binOp op a b, st =>
    if op = "*" then
      match gen_expr a st with
      | none => none
      | some st =>
        match gen_expr b st with
        | none => none
        | some st => some (emit st .MUL 0)
    else if op = "+" then
      match gen_expr a st with
      | none => none
      | some st =>
        match gen_expr b st with
        | none => none
        | some st => some (emit st .ADD 0)
    else if op = "-" then
      match gen_expr a st with
      | none => none
      | some st =>
        match gen_expr b st with
        | none => none
        | some st => some (emit st .SUB 0)
    else if op = "<=" then
      match gen_expr a st with
      | none => none
      | some st =>
        match gen_expr b st with
        | none => none
        | some st => some (emit st .LE 0)
    else if op = "==" then
      match gen_expr a st with
      | none => none
      | some st =>
        match gen_expr b st with
        | none => none
        | some st =>
          let st := emit st .SUB 0
          let l_true := st.code.length
          let st := emit st .JZ 0
          let st := emit st .PUSHI 0
          let l_end := st.code.length
          let st := emit st .JMP 0
          let st := setArg st l_true (st.code.length : Int)
          let st := emit st .PUSHI 1
          some (setArg st l_end (st.code.length : Int))
    else none

/-- The `readString()` assignment runtime. -/
def gen_readString (st : Codegen) (name : String) : Codegen :=
  let (base, st) := alloc_var st name
  let (ptr, st) := alloc_var st "__ptr__"
  let st := emit st .PUSHI (base : Int)
  let st := emit st .LOAD 0
  let st := emit st .PUSHI (ptr : Int)
  let st := emit st .STORE 0
  let rs := st.code.length
  let st := emit st .IN 1
  let st := emit st .DUP 0
  let st := emit st .PUSHI 10
  let st := emit st .SUB 0
  let jz_end := st.code.length
  let st := emit st .JZ 0
  let st := emit st .PUSHI (ptr : Int)
  let st := emit st .LOAD 0
  let st := emit st .STORE 0
  let st := emit st .PUSHI (ptr : Int)
  let st := emit st .LOAD 0
  let st := emit st .PUSHI 1
  let st := emit st .ADD 0
  let st := emit st .PUSHI (ptr : Int)
  let st := emit st .STORE 0
  let st := emit st .JMP (rs : Int)
  let endp := st.code.length
  let st := setArg st jz_end (endp : Int)
  let st := emit st .PUSHI 0
  let st := emit st .PUSHI (ptr : Int)
  let st := emit st .LOAD 0
  emit st .STORE 0

/-- The `a = readLong()` lowering: two `IN L` into low then high word. -/
def gen_readLong (st : Codegen) (base base_hi : Nat) : Codegen :=
  let st := emit st .IN 3
  let st := emit st .PUSHI (base : Int)
  let st := emit st .STORE 0
  let st := emit st .IN 3
  let st := emit st .PUSHI (base_hi : Int)
  emit st .STORE 0

/-- The `a = b + c` lowering for a `long` left-hand side: the 64-bit add
with carry sequence of `gen_stmt`, transcribed emit by emit (including the
dead `PUSHI tmp_hi; SWAP` pair). -/
def gen_long_add (st : Codegen) (base base_hi : Nat) (an bn : String) : Codegen :=
  let (aaddr, st) := alloc_var st an
  let st := emit st .PUSHI (aaddr : Int)
  let st := emit st .LOAD 0
  let st := emit st .PUSHI ((aaddr + 1 : Nat) : Int)
  let st := emit st .LOAD 0
  let (baddr, st) := alloc_var st bn
  let st := emit st .PUSHI (baddr : Int)
  let st := emit st .LOAD 0
  let st := emit st .PUSHI ((baddr + 1 : Nat) : Int)
  let st := emit st .LOAD 0
  let (tmp_lo, st) := alloc_var st "__tmp_lo__"
  let (tmp_hi, st) := alloc_var st "__tmp_hi__"
  let st := emit st .PUSHI (tmp_hi : Int)
  let st := emit st .SWAP 0
  let (aaddr, st) := alloc_var st an
  let st := emit st .PUSHI (aaddr : Int)
  let st := emit st .LOAD 0
  let (baddr, st) := alloc_var st bn
  let st := emit st .PUSHI (baddr : Int)
  let st := emit st .LOAD 0
  let st := emit st .ADD 0
  let st := emit st .PUSHI (tmp_lo : Int)
  let st := emit st .STORE 0
  let (aaddr, st) := alloc_var st an
  let st := emit st .PUSHI (aaddr : Int)
  let st := emit st .LOAD 0
  let st := emit st .PUSHI 1
  let st := emit st .SUB 0
  let st := emit st .PUSHI (tmp_lo : Int)
  let st := emit st .LOAD 0
  let st := emit st .LE 0
  let (aaddr, st) := alloc_var st an
  let st := emit st .PUSHI ((aaddr + 1 : Nat) : Int)
  let st := emit st .LOAD 0
  let (baddr, st) := alloc_var st bn
  let st := emit st .PUSHI ((baddr + 1 : Nat) : Int)
  let st := emit st .LOAD 0
  let st := emit st .ADD 0
  let st := emit st .PUSHI (tmp_hi : Int)
  let st := emit st .STORE 0
  let jz := st.code.length
  let st := emit st .JZ 0
  let st := emit st .PUSHI (tmp_hi : Int)
  let st := emit st .LOAD 0
  let st := emit st .PUSHI 1
  let st := emit st .ADD 0
  let st := emit st .PUSHI (tmp_hi : Int)
  let st := emit st .STORE 0
  let endc := st.code.length
  let st := emit st .JMP 0
  let st := setArg st jz (st.code.length : Int)
  let st := setArg st endc (st.code.length : Int)
  let st := emit st .PUSHI (tmp_lo : Int)
  let st := emit st .LOAD 0
  let st := emit st .PUSHI (base : Int)
  let st := emit st .STORE 0
  let st := emit st .PUSHI (tmp_hi : Int)
  let st := emit st .LOAD 0
  let st := emit st .PUSHI (base_hi : Int)
  emit st .STORE 0

/-- `isinstance(e, Call) and e.name == nm`. -/
def isCallNamed : Expr → String → Bool
  | .call n _, nm => n == nm
  | _, _ => false

/-- The `Break` case of `Codegen.gen_stmt`: emit a `JMP` hole and record its
position on the innermost break level. -/
def gen_break (st : Codegen) : Option Codegen :=
  match st.break_stack with
  | [] => none
  | lvl :: rest =>
    let pos := st.code.length
    let st2 := emit st .JMP 0
    some { st2 with
      break_stack := (lvl ++ [pos]) :: rest }

/-- The `VarDecl` case of `Codegen.gen_stmt`. -/
def gen_varDecl (vtype name : String) (st : Codegen) : Option Codegen :=
  let (_, st) := alloc_var st name
  let st := { st with var_types := sPut st.var_types name vtype }
  if vtype = "string" then
    let (base, st) := alloc_buffer st 64
    let (var_addr, st) := alloc_var st name
    let st := emit st .PUSHI (base : Int)
    let st := emit st .PUSHI (var_addr : Int)
    some (emit st .STORE 0)
  else some st

/-- The `Assign` case of `Codegen.gen_stmt`. -/
def gen_assign (name : String) (e : Expr) (st : Codegen) : Option Codegen :=
  if isCallNamed e "readString" then some (gen_readString st name)
  else if sGet st.var_types name = some "long" then
    let (base, st) := alloc_var st name
    let base_hi := base + 1
    if isCallNamed e "readLong" then some (gen_readLong st base base_hi)
    else
      match e with
      | .binOp "+" (.var an) (.var bn) => some (gen_long_add st base base_hi an bn)
      | .binOp "+" _ _ => none
      | _ =>
        match gen_expr e st with
        | none => none
        | some st =>
          let st := emit st .PUSHI (base : Int)
          let st := emit st .STORE 0
          let st := emit st .PUSHI 0
          let st := emit st .PUSHI (base_hi : Int)
          some (emit st .STORE 0)
  else
    match gen_expr e st with
    | none => none
    | some st =>
      let (addr, st) := alloc_var st name
      let st := emit st .PUSHI (addr : Int)
      some (emit st .STORE 0)

/-- The `Call` statement case of `Codegen.gen_stmt` (`ei`, `di`,
`printChar`, `readChar`, `printLong`, `set`). -/
def gen_callS (n : String) (args : List Expr) (st : Codegen) : Option Codegen :=
  if n = "ei" ∧ args.length = 0 then some (emit st .EI 0)
  else if n = "di" ∧ args.length = 0 then some (emit st .DI 0)
  else if n = "printChar" ∧ args.length = 1 then
    match args with
    | [a] =>
      match gen_expr a st with
      | none => none
      | some st => some (emit st .OUT 1)
    | _ => none
  else if n = "readChar" ∧ args.length = 0 then some (emit st .IN 1)
  else if n = "printLong" ∧ args.length = 1 then
    match args with
    | [.var vn] =>
      let (base, st) := alloc_var st vn
      let st := emit st .PUSHI (base : Int)
      let st := emit st .LOAD 0
      let st := emit st .OUT 3
      let st := emit st .PUSHI ((base + 1 : Nat) : Int)
      let st := emit st .LOAD 0
      some (emit st .OUT 3)
    | _ => none
  else if n = "set" ∧ args.length = 3 then
    match args with
    | [.var vn, idx, value] =>
      let st := ensure_array_initialized st vn 128
      let (base_addr, st) := alloc_var st vn
      match gen_expr value st with
      | none => none
      | some st =>
        let st := emit st .PUSHI (base_addr : Int)
        let st := emit st .LOAD 0
        match gen_expr idx st with
        | none => none
        | some st =>
          let st := emit st .ADD 0
          some (emit st .STORE 0)
    | _ => none
  else none

/-- The `PrintInt` case of `Codegen.gen_stmt`. -/
def gen_printInt (e : Expr) (st : Codegen) : Option Codegen :=
  match gen_expr e st with
  | none => none
  | some st =>
    let st := emit st .OUT 2
    let st := emit st .PUSHI 10
    some (emit st .OUT 1)

/-- The `PrintStr` case of `Codegen.gen_stmt`. -/
def gen_printStr (text : String) (st : Codegen) : Option Codegen :=
  let (var_addr, st) := ensure_cstr_literal st text
  some (emit_print_cstr st var_addr)

/-- The `PrintChar` case of `Codegen.gen_stmt`. -/
def gen_printChar (e : Expr) (st : Codegen) : Option Codegen :=
  match e with
  | .var n =>
    if sGet st.var_types n = some "string" then
      let (addr, st) := alloc_var st n
      some (emit_print_cstr st addr)
    else
      match gen_expr (.var n) st with
      | none => none
      | some st => some (emit st .OUT 1)
  | _ =>
    match gen_expr e st with
    | none => none
    | some st => some (emit st .OUT 1)

mutual

/-- `Codegen.gen_stmt`: the non-recursive statement kinds are handled by
the helpers above; `While` and `If` recurse into their bodies. -/
def gen_stmt : Stmt → Codegen → Option Codegen
  | .breakS, st => gen_break st
  | .varDecl vtype name, st => gen_varDecl vtype name st
  | .assign name e, st => gen_assign name e st
  | .whileS cond body, st =>
    let start := st.code.length
    match gen_expr cond st with
    | none => none
    | some st =>
      let jz_pos := st.code.length
      let st := emit st .JZ 0
      let st := { st with break_stack := [] :: st.break_stack }
      match gen_while_body body st with
      | none => none
      | some st =>
        let st := emit st .JMP (start : Int)
        let endp := st.code.length
        let st := setArg st jz_pos (endp : Int)
        match st.break_stack with
        | [] => none
        | lvl :: rest =>
          some (lvl.foldl (fun st2 pos => setArg st2 pos (endp : Int))
            { st with break_stack := rest })
  | .ifS cond thenB elseB, st =>
    match gen_expr cond st with
    | none => none
    | some st =>
      let jz_pos := st.code.length
      let st := emit st .JZ 0
      match gen_stmts thenB st with
      | none => none
      | some st =>
        match elseB with
        | some eb =>
          let jmp_end := st.code.length
          let st := emit st .JMP 0
          let st := setArg st jz_pos (st.code.length : Int)
          match gen_stmts eb st with
          | none => none
          | some st => some (setArg st jmp_end (st.code.length : Int))
        | none => some (setArg st jz_pos (st.code.length : Int))
  | .callS n args, st => gen_callS n args st
  | .printInt e, st => gen_printInt e st
  | .printStr text, st => gen_printStr text st
  | .printChar e, st => gen_printChar e st

/-- The statement-list walks of `gen_stmt` (`If` bodies) and `gen_func`. -/
def gen_stmts : List Stmt → Codegen → Option Codegen
  | [], st => some st
  | s :: rest, st =>
    match gen_stmt s st with
    | none => none
    | some st2 => gen_stmts rest st2

/-- The `While`-body walk: a top-level `Break` is handled inline (emit a
`JMP` hole and record it on the innermost break level). -/
def gen_while_body : List Stmt → Codegen → Option Codegen
  | [], st => some st
  | s :: rest, st =>
    match s with
    | .breakS =>
      let br_pos := st.code.length
      let st2 := emit st .JMP 0
      match st2.break_stack with
      | [] => none
      | lvl :: r =>
        gen_while_body rest { st2 with break_stack := (lvl ++ [br_pos]) :: r }
    | _ =>
      match gen_stmt s st with
      | none => none
      | some st2 => gen_while_body rest st2

end

/-- `Codegen._is_irq_func`: the name starts with `irq` and the rest is a
nonempty digit string. -/
def isIrqName (n : String) : Bool :=
  match n.toList with
  | 'i' :: 'r' :: 'q' :: rest => !rest.isEmpty && rest.all Char.isDigit
  | _ => false

/-- `Codegen.gen_func`: record the label, lower the body, then the
terminator (`HALT` for `main`, `IRET` for `irqN`, `RET` otherwise). -/
def gen_func (f : Func) (st : Codegen) : Option Codegen :=
  let st := { st with labels := sPut st.labels f.name st.code.length }
  match gen_stmts f.body st with
  | none => none
  | some st =>
    if f.name = "main" then some (emit st .HALT 0)
    else if isIrqName f.name then some (emit st .IRET 0)
    else some (emit st .RET 0)

def gen_funcs : List Func → Codegen → Option Codegen
  | [], st => some st
  | f :: rest, st =>
    match gen_func f st with
    | none => none
    | some st2 => gen_funcs rest st2

/-- The relocation applied to each emitted instruction: `JMP`, `JZ` and
`CALL` arguments are shifted past the vector table, everything else is
untouched. -/
def relocIns (ins : Instr) : Instr :=
  if ins.opcode = .JMP ∨ ins.opcode = .JZ ∨ ins.opcode = .CALL then
    { ins with arg := ins.arg + (DEFAULT_NUM_VECTORS : Int) }
  else ins

/-- The vector table `Codegen.gen` builds: slot 0 jumps to `main` when it
exists, slot `i ∈ 1..V-1` jumps to `irqN` when that function exists, and
every unfilled slot keeps the default `JMP 0`. -/
def mkVectors (st : Codegen) : List Instr :=
  (List.range DEFAULT_NUM_VECTORS).map fun i =>
    if i = 0 then
      match sGet st.labels "main" with
      | some mo => ⟨.JMP, ((DEFAULT_NUM_VECTORS + mo : Nat) : Int)⟩
      | none => ⟨.JMP, 0⟩
    else
      match sGet st.labels ("irq" ++ toString i) with
      | some ho => ⟨.JMP, ((DEFAULT_NUM_VECTORS + ho : Nat) : Int)⟩
      | none => ⟨.JMP, 0⟩

/-- `Codegen.gen`: generate every function, relocate, and prepend the
vector table. -/
def gen (prog : Program) : Option (List Instr) :=
  match gen_funcs prog.functions initCodegen with
  | none => none
  | some st => some (mkVectors st ++ st.code.map relocIns)

/-- C6 (code bug). The claim says a `long` variable gets two data words,
low at base and high at base+1, with nothing else at base+1. But
`gen_stmt` for `VarDecl` calls `alloc_var` *before* recording the type in
`var_types`, so `alloc_var` sees no type and bumps `data_next` by one word
only: after `long a; int b;` the generator maps `a` to address 0 and `b` to
address 1 — the very address the long lowering uses as the high word of
`a` — with `data_next = 2` instead of 3. -/
theorem c6_long_var_gets_one_word :
    (gen_stmts [Stmt.varDecl "long" "a", Stmt.varDecl "int" "b"]
        initCodegen).map
      (fun st => (sGet st.vars "a", sGet st.vars "b", st.data_next)) =
    some (some 0, some 1, 2) := by decide

/-- Six instructions that preset data memory for the C1 run: store 1 into
address 2 (`b`'s low word) and 1 into address 4 (`c`'s low word). -/
def c1Init : List Instr :=
  [Instr.mk .PUSHI 1, Instr.mk .PUSHI 2, Instr.mk .STORE 0,
   Instr.mk .PUSHI 1, Instr.mk .PUSHI 4, Instr.mk .STORE 0]

/-- A generator state in which `a`, `b`, `c` are registered as `long`
*before* any allocation, so `alloc_var` gives each its two words
(`a` at 0/1, `b` at 2/3, `c` at 4/5) — isolating the carry logic of the
long addition from the C6 allocation bug. -/
def c1Cg0 : Codegen :=
  { initCodegen with
    code := c1Init
    var_types := [("a", "long"), ("b", "long"), ("c", "long")] }

/-- The program: preset memory, then the emitted lowering of `a = b + c`
for `long` operands, then `HALT`. -/
def c1Code : List Instr :=
  match gen_stmt (.assign "a" (.binOp "+" (.var "b") (.var "c"))) c1Cg0 with
  | some st => st.code ++ [Instr.mk .HALT 0]
  | none => []

/-- The machine after running that program: whether it halted and the two
words of `a`. -/
def c1Result : Bool × List Nat :=
  match runN 250 (mkCPU c1Code 16 [] 1000) with
  | .ok m => (m.halted, m.dp.mem.take 2)
  | .error _ => (false, [])

/-- C1 (code bug). With `b = 1` and `c = 1` (both `long`, high words 0) the
low-word addition does not wrap, so the claimed carry detection must leave
the high word at 0 and `a = 2`. Running the emitted sequence instead ends
with `a`'s words `[2, 1]`, i.e. `a = 2^32 + 2`: the emitted `LE` computes
`(a_lo - 1) <= lo_sum` (operands reversed with respect to the claimed
`lo_sum <= a_lo - 1`), so the high word is incremented on this carry-less
input. -/
theorem c1_long_add_wrong_carry : c1Result = (true, [2, 1]) := by decide

/-! ### Non-negativity of every emitted argument (towards C5) -/

/-- Every instruction the generator has put into `code` has a non-negative
argument (arguments are code positions, data addresses, ports, ASCII codes
or masked immediates). -/
def CArgsOk (st : Codegen) : Prop := ∀ ins ∈ st.code, 0 ≤ ins.arg

theorem cargs_emit {st : Codegen} {op : Opcode} {arg : Int} (h : CArgsOk st)
    (ha : 0 ≤ arg) : CArgsOk (emit st op arg) := by
  intro ins hins
  unfold emit at hins
  simp only at hins
  rcases List.mem_append.mp hins with h1 | h1
  · exact h ins h1
  · simp at h1
    rw [h1]
    exact ha

theorem cargs_setArg {st : Codegen} {i : Nat} {v : Int} (h : CArgsOk st)
    (hv : 0 ≤ v) : CArgsOk (setArg st i v) := by
  intro ins hins
  unfold setArg at hins
  simp only at hins
  cases hget : st.code.get? i with
  | none => rw [hget] at hins; exact h ins hins
  | some ins0 =>
    rw [hget] at hins
    rcases List.mem_or_eq_of_mem_set hins with h1 | h1
    · exact h ins h1
    · rw [h1]; exact hv

theorem cargs_alloc_var {st : Codegen} {n : String} (h : CArgsOk st) :
    CArgsOk (alloc_var st n).2 := by
  unfold alloc_var
  split
  · exact h
  · exact h

theorem cargs_ensure_array {st : Codegen} {n : String} {c : Nat}
    (h : CArgsOk st) : CArgsOk (ensure_array_initialized st n c) := by
  unfold ensure_array_initialized
  split
  · exact h
  · apply cargs_emit _ (by omega)
    apply cargs_emit _ (Int.natCast_nonneg _)
    apply cargs_emit _ (Int.natCast_nonneg _)
    exact cargs_alloc_var h

theorem cargs_emitCstrInit (cs : List Char) (addr : Nat) {st : Codegen}
    (h : CArgsOk st) : CArgsOk (emitCstrInit cs addr st) := by
  induction cs generalizing addr st with
  | nil => exact h
  | cons c rest ih =>
    exact ih (addr + 1)
      (cargs_emit (cargs_emit (cargs_emit h (Int.natCast_nonneg _))
        (Int.natCast_nonneg _)) (by omega))

theorem cargs_ensure_cstr {st : Codegen} {text : String} (h : CArgsOk st) :
    CArgsOk (ensure_cstr_literal st text).2 := by
  unfold ensure_cstr_literal
  split
  · exact h
  · repeat'
      first
      | exact h
      | apply cargs_alloc_var
      | apply cargs_emitCstrInit
      | apply cargs_emit
      | exact Int.natCast_nonneg _
      | decide

theorem cargs_alloc_var_eq {st st2 : Codegen} {n : String} {a : Nat}
    (h : CArgsOk st) (heq : alloc_var st n = (a, st2)) : CArgsOk st2 := by
  have h2 : (alloc_var st n).2 = st2 := by rw [heq]
  rw [← h2]
  exact cargs_alloc_var h

theorem cargs_emit_print_cstr {st : Codegen} {addr : Nat} (h : CArgsOk st) :
    CArgsOk (emit_print_cstr st addr) := by
  unfold emit_print_cstr
  split
  rename_i ptr st1 heq1
  have h1 : CArgsOk st1 := cargs_alloc_var_eq h heq1
  apply cargs_setArg
  repeat' apply cargs_emit
  all_goals first | exact Int.natCast_nonneg _ | decide | exact h1

theorem cargs_gen_readInt {st : Codegen} (h : CArgsOk st) :
    CArgsOk (gen_readInt st) := by
  unfold gen_readInt
  split
  rename_i tmp st1 heq1
  have h1 : CArgsOk st1 := cargs_alloc_var_eq h heq1
  split
  rename_i ch st2 heq2
  have h2 : CArgsOk st2 := cargs_alloc_var_eq h1 heq2
  iterate 2 refine cargs_emit ?_ (by first | exact Int.natCast_nonneg _ | decide)
  refine cargs_setArg ?_ (by first | exact Int.natCast_nonneg _ | decide)
  iterate 23 refine cargs_emit ?_ (by first | exact Int.natCast_nonneg _ | decide)
  exact h2

theorem cargs_gen_readString {st : Codegen} {n : String} (h : CArgsOk st) :
    CArgsOk (gen_readString st n) := by
  unfold gen_readString
  split
  rename_i base st1 heq1
  have h1 : CArgsOk st1 := cargs_alloc_var_eq h heq1
  split
  rename_i ptr st2 heq2
  have h2 : CArgsOk st2 := cargs_alloc_var_eq h1 heq2
  iterate 4 refine cargs_emit ?_ (by first | exact Int.natCast_nonneg _ | decide)
  refine cargs_setArg ?_ (by first | exact Int.natCast_nonneg _ | decide)
  iterate 19 refine cargs_emit ?_ (by first | exact Int.natCast_nonneg _ | decide)
  exact h2

theorem cargs_gen_readLong {st : Codegen} {b bh : Nat} (h : CArgsOk st) :
    CArgsOk (gen_readLong st b bh) := by
  unfold gen_readLong
  repeat'
    first
    | exact h
    | apply cargs_emit
    | exact Int.natCast_nonneg _
    | decide

theorem cargs_gen_long_add {st : Codegen} {b bh : Nat} {an bn : String}
    (h : CArgsOk st) : CArgsOk (gen_long_add st b bh an bn) := by
  unfold gen_long_add
  dsimp only []
  iterate 8 refine cargs_emit ?_ (by first | exact Int.natCast_nonneg _ | decide)
  iterate 2 refine cargs_setArg ?_ (Int.natCast_nonneg _)
  iterate 8 refine cargs_emit ?_ (by first | exact Int.natCast_nonneg _ | decide)
  iterate 5 refine cargs_emit ?_ (by first | exact Int.natCast_nonneg _ | decide)
  refine cargs_alloc_var ?_
  iterate 2 refine cargs_emit ?_ (by first | exact Int.natCast_nonneg _ | decide)
  refine cargs_alloc_var ?_
  iterate 7 refine cargs_emit ?_ (by first | exact Int.natCast_nonneg _ | decide)
  refine cargs_alloc_var ?_
  iterate 5 refine cargs_emit ?_ (by first | exact Int.natCast_nonneg _ | decide)
  refine cargs_alloc_var ?_
  iterate 2 refine cargs_emit ?_ (by first | exact Int.natCast_nonneg _ | decide)
  refine cargs_alloc_var ?_
  iterate 2 refine cargs_emit ?_ (by first | exact Int.natCast_nonneg _ | decide)
  refine cargs_alloc_var ?_
  refine cargs_alloc_var ?_
  iterate 4 refine cargs_emit ?_ (by first | exact Int.natCast_nonneg _ | decide)
  refine cargs_alloc_var ?_
  iterate 4 refine cargs_emit ?_ (by first | exact Int.natCast_nonneg _ | decide)
  exact cargs_alloc_var h

theorem cargs_foldl_setArg (lvl : List Nat) (v : Int) (hv : 0 ≤ v)
    {st : Codegen} (h : CArgsOk st) :
    CArgsOk (lvl.foldl (fun st2 pos => setArg st2 pos v) st) := by
  induction lvl generalizing st with
  | nil => exact h
  | cons p rest ih => exact ih (cargs_setArg h hv)

theorem cargs_alloc_buffer_eq {st st2 : Codegen} {w a : Nat}
    (h : CArgsOk st) (heq : alloc_buffer st w = (a, st2)) : CArgsOk st2 := by
  have h2 : (alloc_buffer st w).2 = st2 := by rw [heq]
  rw [← h2]
  exact h

theorem cargs_ensure_cstr_eq {st st2 : Codegen} {t : String} {a : Nat}
    (h : CArgsOk st) (heq : ensure_cstr_literal st t = (a, st2)) : CArgsOk st2 := by
  have h2 : (ensure_cstr_literal st t).2 = st2 := by rw [heq]
  rw [← h2]
  exact cargs_ensure_cstr h

theorem cargs_gen_expr_b (k : Nat) :
    ∀ (e : Expr) {st st2 : Codegen}, sizeOf e ≤ k →
      gen_expr e st = some st2 → CArgsOk st → CArgsOk st2 := by
  induction k using Nat.strong_induction_on with
  | _ k ih =>
    intro e st st2 hs heq h
    match e with
    | .intLit v =>
      simp only [gen_expr] at heq
      exact Option.some.inj heq ▸ cargs_emit h (Int.natCast_nonneg _)
    | .var n =>
      simp only [gen_expr] at heq
      exact Option.some.inj heq ▸
        cargs_emit (cargs_emit (cargs_alloc_var h) (Int.natCast_nonneg _))
          (by decide)
    | .call n args =>
      by_cases hshape : ∃ vn idx, args = [Expr.var vn, idx]
      · obtain ⟨vn, idx, rfl⟩ := hshape
        rw [gen_expr] at heq
        split at heq
        · exact Option.some.inj heq ▸ cargs_gen_readInt h
        · split at heq
          · exact Option.some.inj heq ▸ cargs_emit h (by decide)
          · split at heq
            · dsimp only [] at heq
              split at heq
              · exact Option.noConfusion heq
              · rename_i stB hB
                have hsidx : sizeOf idx < k :=
                  Nat.lt_of_lt_of_le (by simp <;> omega) hs
                have h1 : CArgsOk
                    (alloc_var (ensure_array_initialized st vn 128) vn).2 :=
                  cargs_alloc_var (cargs_ensure_array h)
                have h2 : CArgsOk stB :=
                  ih _ hsidx idx le_rfl hB
                    (cargs_emit (cargs_emit h1 (Int.natCast_nonneg _))
                      (by decide))
                exact Option.some.inj heq ▸
                  cargs_emit (cargs_emit h2 (by decide)) (by decide)
            · exact Option.noConfusion heq
      · rw [gen_expr] at heq
        rotate_left
        exact fun vn idx he => hshape ⟨vn, idx, he⟩
        split at heq
        · exact Option.some.inj heq ▸ cargs_gen_readInt h
        · split at heq
          · exact Option.some.inj heq ▸ cargs_emit h (by decide)
          · split at heq
            · exact Option.noConfusion heq
            · exact Option.noConfusion heq
    | .binOp op a b =>
      simp only [gen_expr] at heq
      have hsa : sizeOf a < k := Nat.lt_of_lt_of_le (by simp <;> omega) hs
      have hsb : sizeOf b < k := Nat.lt_of_lt_of_le (by simp <;> omega) hs
      split at heq
      · split at heq
        · exact Option.noConfusion heq
        · rename_i stA hA
          split at heq
          · exact Option.noConfusion heq
          · rename_i stB hB
            exact Option.some.inj heq ▸
              cargs_emit (ih _ hsb b le_rfl hB (ih _ hsa a le_rfl hA h))
                (by decide)
      · split at heq
        · split at heq
          · exact Option.noConfusion heq
          · rename_i stA hA
            split at heq
            · exact Option.noConfusion heq
            · rename_i stB hB
              exact Option.some.inj heq ▸
                cargs_emit (ih _ hsb b le_rfl hB (ih _ hsa a le_rfl hA h))
                  (by decide)
        · split at heq
          · split at heq
            · exact Option.noConfusion heq
            · rename_i stA hA
              split at heq
              · exact Option.noConfusion heq
              · rename_i stB hB
                exact Option.some.inj heq ▸
                  cargs_emit (ih _ hsb b le_rfl hB (ih _ hsa a le_rfl hA h))
                    (by decide)
          · split at heq
            · split at heq
              · exact Option.noConfusion heq
              · rename_i stA hA
                split at heq
                · exact Option.noConfusion heq
                · rename_i stB hB
                  exact Option.some.inj heq ▸
                    cargs_emit (ih _ hsb b le_rfl hB (ih _ hsa a le_rfl hA h))
                      (by decide)
            · split at heq
              · split at heq
                · exact Option.noConfusion heq
                · rename_i stA hA
                  split at heq
                  · exact Option.noConfusion heq
                  · rename_i stB hB
                    have h2 : CArgsOk stB :=
                      ih _ hsb b le_rfl hB (ih _ hsa a le_rfl hA h)
                    refine Option.some.inj heq ▸ ?_
                    try dsimp only []
                    refine cargs_setArg ?_ (Int.natCast_nonneg _)
                    refine cargs_emit ?_ (by decide)
                    refine cargs_setArg ?_ (Int.natCast_nonneg _)
                    iterate 4 refine cargs_emit ?_ (by decide)
                    exact h2
              · exact Option.noConfusion heq

theorem cargs_gen_expr (e : Expr) {st st2 : Codegen}
    (heq : gen_expr e st = some st2) (h : CArgsOk st) : CArgsOk st2 :=
  cargs_gen_expr_b (sizeOf e) e le_rfl heq h

def Stmt.isBreak : Stmt → Bool
  | .breakS => true
  | _ => false

theorem gen_stmt_breakS (st : Codegen) : gen_stmt .breakS st = gen_break st := rfl

theorem gen_stmt_varDecl (vt nm : String) (st : Codegen) :
    gen_stmt (.varDecl vt nm) st = gen_varDecl vt nm st := rfl

theorem gen_stmt_assign (nm : String) (e : Expr) (st : Codegen) :
    gen_stmt (.assign nm e) st = gen_assign nm e st := rfl

theorem gen_stmt_callS (n : String) (args : List Expr) (st : Codegen) :
    gen_stmt (.callS n args) st = gen_callS n args st := rfl

theorem gen_stmt_printInt (e : Expr) (st : Codegen) :
    gen_stmt (.printInt e) st = gen_printInt e st := rfl

theorem gen_stmt_printStr (t : String) (st : Codegen) :
    gen_stmt (.printStr t) st = gen_printStr t st := rfl

theorem gen_stmt_printChar (e : Expr) (st : Codegen) :
    gen_stmt (.printChar e) st = gen_printChar e st := rfl

theorem gen_stmt_whileS (cond : Expr) (body : List Stmt) (st : Codegen) :
    gen_stmt (.whileS cond body) st =
      (let start := st.code.length
       match gen_expr cond st with
       | none => none
       | some st =>
         let jz_pos := st.code.length
         let st := emit st .JZ 0
         let st := { st with break_stack := [] :: st.break_stack }
         match gen_while_body body st with
         | none => none
         | some st =>
           let st := emit st .JMP (start : Int)
           let endp := st.code.length
           let st := setArg st jz_pos (endp : Int)
           match st.break_stack with
           | [] => none
           | lvl :: rest =>
             some (lvl.foldl (fun st2 pos => setArg st2 pos (endp : Int))
               { st with break_stack := rest })) := rfl

theorem gen_stmt_ifS_some (cond : Expr) (thenB eb : List Stmt) (st : Codegen) :
    gen_stmt (.ifS cond thenB (some eb)) st =
      (match gen_expr cond st with
       | none => none
       | some st =>
         let jz_pos := st.code.length
         let st := emit st .JZ 0
         match gen_stmts thenB st with
         | none => none
         | some st =>
           let jmp_end := st.code.length
           let st := emit st .JMP 0
           let st := setArg st jz_pos (st.code.length : Int)
           match gen_stmts eb st with
           | none => none
           | some st => some (setArg st jmp_end (st.code.length : Int))) := rfl

theorem gen_stmt_ifS_none (cond : Expr) (thenB : List Stmt) (st : Codegen) :
    gen_stmt (.ifS cond thenB none) st =
      (match gen_expr cond st with
       | none => none
       | some st =>
         let jz_pos := st.code.length
         let st := emit st .JZ 0
         match gen_stmts thenB st with
         | none => none
         | some st => some (setArg st jz_pos (st.code.length : Int))) := rfl

theorem gen_stmts_nil (st : Codegen) : gen_stmts [] st = some st := rfl

theorem gen_stmts_cons (s : Stmt) (rest : List Stmt) (st : Codegen) :
    gen_stmts (s :: rest) st =
      (match gen_stmt s st with
       | none => none
       | some st2 => gen_stmts rest st2) := rfl

theorem gen_while_body_nil (st : Codegen) : gen_while_body [] st = some st := rfl

theorem gen_while_body_cons_break (rest : List Stmt) (st : Codegen) :
    gen_while_body (.breakS :: rest) st =
      (let br_pos := st.code.length
       let st2 := emit st .JMP 0
       match st2.break_stack with
       | [] => none
       | lvl :: r =>
         gen_while_body rest { st2 with break_stack := (lvl ++ [br_pos]) :: r }) := rfl

theorem gen_while_body_cons_nonbreak (s : Stmt) (rest : List Stmt)
    (st : Codegen) (h : s.isBreak = false) :
    gen_while_body (s :: rest) st =
      (match gen_stmt s st with
       | none => none
       | some st2 => gen_while_body rest st2) := by
  cases s
  case breakS => exact Bool.noConfusion h
  all_goals rfl


theorem cargs_alloc_buffer {st : Codegen} {w : Nat} (h : CArgsOk st) :
    CArgsOk (alloc_buffer st w).2 := h

theorem cargs_gen_break {st st2 : Codegen}
    (heq : gen_break st = some st2) (h : CArgsOk st) : CArgsOk st2 := by
  unfold gen_break at heq
  split at heq
  · exact Option.noConfusion heq
  · exact Option.some.inj heq ▸ cargs_emit h (by decide)

theorem cargs_gen_varDecl {vt nm : String} {st st2 : Codegen}
    (heq : gen_varDecl vt nm st = some st2) (h : CArgsOk st) : CArgsOk st2 := by
  unfold gen_varDecl at heq
  dsimp only [] at heq
  split at heq
  · refine Option.some.inj heq ▸ ?_
    refine cargs_emit ?_ (by decide)
    refine cargs_emit ?_ (Int.natCast_nonneg _)
    refine cargs_emit ?_ (Int.natCast_nonneg _)
    exact cargs_alloc_var (cargs_alloc_buffer (cargs_alloc_var h))
  · exact Option.some.inj heq ▸ cargs_alloc_var h

theorem cargs_gen_assign {nm : String} {e : Expr} {st st2 : Codegen}
    (heq : gen_assign nm e st = some st2) (h : CArgsOk st) : CArgsOk st2 := by
  unfold gen_assign at heq
  split at heq
  · exact Option.some.inj heq ▸ cargs_gen_readString h
  · split at heq
    · dsimp only [] at heq
      split at heq
      · exact Option.some.inj heq ▸ cargs_gen_readLong (cargs_alloc_var h)
      · split at heq
        all_goals try exact Option.noConfusion heq
        all_goals try exact Option.some.inj heq ▸
          cargs_gen_long_add (cargs_alloc_var h)
        all_goals split at heq
        all_goals try exact Option.noConfusion heq
        all_goals
          rename_i stA hA
        all_goals
          exact Option.some.inj heq ▸
            cargs_emit (cargs_emit (cargs_emit (cargs_emit (cargs_emit
              (cargs_gen_expr _ hA (cargs_alloc_var h))
              (by first | exact Int.natCast_nonneg _ | decide))
              (by first | exact Int.natCast_nonneg _ | decide))
              (by first | exact Int.natCast_nonneg _ | decide))
              (by first | exact Int.natCast_nonneg _ | decide))
              (by first | exact Int.natCast_nonneg _ | decide)
    · split at heq
      · exact Option.noConfusion heq
      · rename_i stA hA
        dsimp only [] at heq
        exact Option.some.inj heq ▸
          cargs_emit (cargs_emit (cargs_alloc_var (cargs_gen_expr _ hA h))
            (Int.natCast_nonneg _)) (by decide)

theorem cargs_gen_printInt {e : Expr} {st st2 : Codegen}
    (heq : gen_printInt e st = some st2) (h : CArgsOk st) : CArgsOk st2 := by
  unfold gen_printInt at heq
  split at heq
  · exact Option.noConfusion heq
  · rename_i stA hA
    exact Option.some.inj heq ▸
      cargs_emit (cargs_emit (cargs_emit (cargs_gen_expr _ hA h) (by decide))
        (by decide)) (by decide)

theorem cargs_gen_printStr {t : String} {st st2 : Codegen}
    (heq : gen_printStr t st = some st2) (h : CArgsOk st) : CArgsOk st2 := by
  unfold gen_printStr at heq
  dsimp only [] at heq
  exact Option.some.inj heq ▸ cargs_emit_print_cstr (cargs_ensure_cstr h)

theorem cargs_gen_printChar {e : Expr} {st st2 : Codegen}
    (heq : gen_printChar e st = some st2) (h : CArgsOk st) : CArgsOk st2 := by
  unfold gen_printChar at heq
  split at heq
  · split at heq
    · dsimp only [] at heq
      exact Option.some.inj heq ▸ cargs_emit_print_cstr (cargs_alloc_var h)
    · split at heq
      · exact Option.noConfusion heq
      · rename_i stA hA
        exact Option.some.inj heq ▸ cargs_emit (cargs_gen_expr _ hA h) (by decide)
  · split at heq
    · exact Option.noConfusion heq
    · rename_i stA hA
      exact Option.some.inj heq ▸ cargs_emit (cargs_gen_expr _ hA h) (by decide)

theorem cargs_gen_callS {n : String} {args : List Expr} {st st2 : Codegen}
    (heq : gen_callS n args st = some st2) (h : CArgsOk st) : CArgsOk st2 := by
  unfold gen_callS at heq
  split at heq
  · exact Option.some.inj heq ▸ cargs_emit h (by decide)
  · split at heq
    · exact Option.some.inj heq ▸ cargs_emit h (by decide)
    · split at heq
      · split at heq
        all_goals try exact Option.noConfusion heq
        rename_i a
        split at heq
        · exact Option.noConfusion heq
        · rename_i stA hA
          exact Option.some.inj heq ▸ cargs_emit (cargs_gen_expr _ hA h) (by decide)
      · split at heq
        · exact Option.some.inj heq ▸ cargs_emit h (by decide)
        · split at heq
          · split at heq
            all_goals try exact Option.noConfusion heq
            rename_i vn
            dsimp only [] at heq
            refine Option.some.inj heq ▸ ?_
            refine cargs_emit ?_ (by decide)
            refine cargs_emit ?_ (by first | exact Int.natCast_nonneg _ | decide)
            refine cargs_emit ?_ (by first | exact Int.natCast_nonneg _ | decide)
            refine cargs_emit ?_ (by decide)
            refine cargs_emit ?_ (by decide)
            refine cargs_emit ?_ (by first | exact Int.natCast_nonneg _ | decide)
            exact cargs_alloc_var h
          · split at heq
            · split at heq
              all_goals try exact Option.noConfusion heq
              rename_i vn idx value
              dsimp only [] at heq
              split at heq
              · exact Option.noConfusion heq
              · rename_i stA hA
                split at heq
                · exact Option.noConfusion heq
                · rename_i stB hB
                  have h1 : CArgsOk stA :=
                    cargs_gen_expr _ hA
                      (cargs_alloc_var (cargs_ensure_array h))
                  have h2 : CArgsOk stB :=
                    cargs_gen_expr _ hB
                      (cargs_emit (cargs_emit h1 (Int.natCast_nonneg _))
                        (by decide))
                  exact Option.some.inj heq ▸
                    cargs_emit (cargs_emit h2 (by decide)) (by decide)
            · exact Option.noConfusion heq


theorem cargs_gen_stmt_b (k : Nat) :
    (∀ (s : Stmt) {st st2 : Codegen}, sizeOf s ≤ k →
      gen_stmt s st = some st2 → CArgsOk st → CArgsOk st2) ∧
    (∀ (l : List Stmt) {st st2 : Codegen}, sizeOf l ≤ k →
      gen_stmts l st = some st2 → CArgsOk st → CArgsOk st2) ∧
    (∀ (l : List Stmt) {st st2 : Codegen}, sizeOf l ≤ k →
      gen_while_body l st = some st2 → CArgsOk st → CArgsOk st2) := by
  induction k using Nat.strong_induction_on with
  | _ k ih =>
    refine ⟨?_, ?_, ?_⟩
    · intro s st st2 hs heq h
      match s with
      | .breakS =>
        rw [gen_stmt_breakS] at heq
        exact cargs_gen_break heq h
      | .varDecl vt nm =>
        rw [gen_stmt_varDecl] at heq
        exact cargs_gen_varDecl heq h
      | .assign nm e =>
        rw [gen_stmt_assign] at heq
        exact cargs_gen_assign heq h
      | .callS n args =>
        rw [gen_stmt_callS] at heq
        exact cargs_gen_callS heq h
      | .printInt e =>
        rw [gen_stmt_printInt] at heq
        exact cargs_gen_printInt heq h
      | .printStr t =>
        rw [gen_stmt_printStr] at heq
        exact cargs_gen_printStr heq h
      | .printChar e =>
        rw [gen_stmt_printChar] at heq
        exact cargs_gen_printChar heq h
      | .whileS cond body =>
        rw [gen_stmt_whileS] at heq
        dsimp only [] at heq
        split at heq
        · exact Option.noConfusion heq
        · rename_i stA hA
          split at heq
          · exact Option.noConfusion heq
          · rename_i stB hB
            split at heq
            · exact Option.noConfusion heq
            · rename_i lvl rest2
              have hbody : sizeOf body < k :=
                Nat.lt_of_lt_of_le (by simp <;> omega) hs
              have h1 : CArgsOk stA := cargs_gen_expr _ hA h
              have h2 : CArgsOk stB :=
                (ih _ hbody).2.2 body le_rfl hB (cargs_emit h1 (by decide))
              refine Option.some.inj heq ▸ ?_
              refine cargs_foldl_setArg _ _ (Int.natCast_nonneg _) ?_
              exact cargs_setArg (cargs_emit h2 (Int.natCast_nonneg _))
                (Int.natCast_nonneg _)
      | .ifS cond thenB elseB =>
        match elseB with
        | some eb =>
          rw [gen_stmt_ifS_some] at heq
          split at heq
          · exact Option.noConfusion heq
          · rename_i stA hA
            dsimp only [] at heq
            split at heq
            · exact Option.noConfusion heq
            · rename_i stB hB
              split at heq
              · exact Option.noConfusion heq
              · rename_i stC hC
                have hthen : sizeOf thenB < k :=
                  Nat.lt_of_lt_of_le (by simp <;> omega) hs
                have helse : sizeOf eb < k :=
                  Nat.lt_of_lt_of_le (by simp <;> omega) hs
                have h1 : CArgsOk stA := cargs_gen_expr _ hA h
                have h2 : CArgsOk stB :=
                  (ih _ hthen).2.1 thenB le_rfl hB (cargs_emit h1 (by decide))
                have h3 : CArgsOk stC :=
                  (ih _ helse).2.1 eb le_rfl hC
                    (cargs_setArg (cargs_emit h2 (by decide))
                      (Int.natCast_nonneg _))
                exact Option.some.inj heq ▸
                  cargs_setArg h3 (Int.natCast_nonneg _)
        | none =>
          rw [gen_stmt_ifS_none] at heq
          split at heq
          · exact Option.noConfusion heq
          · rename_i stA hA
            dsimp only [] at heq
            split at heq
            · exact Option.noConfusion heq
            · rename_i stB hB
              have hthen : sizeOf thenB < k :=
                Nat.lt_of_lt_of_le (by simp <;> omega) hs
              have h2 : CArgsOk stB :=
                (ih _ hthen).2.1 thenB le_rfl hB
                  (cargs_emit (cargs_gen_expr _ hA h) (by decide))
              exact Option.some.inj heq ▸
                cargs_setArg h2 (Int.natCast_nonneg _)
    · intro l st st2 hs heq h
      match l with
      | [] =>
        rw [gen_stmts_nil] at heq
        exact Option.some.inj heq ▸ h
      | s :: rest =>
        rw [gen_stmts_cons] at heq
        split at heq
        · exact Option.noConfusion heq
        · rename_i stA hA
          have hhead : sizeOf s < k := Nat.lt_of_lt_of_le (by simp <;> omega) hs
          have htail : sizeOf rest < k :=
            Nat.lt_of_lt_of_le (by simp <;> omega) hs
          exact (ih _ htail).2.1 rest le_rfl heq ((ih _ hhead).1 s le_rfl hA h)
    · intro l st st2 hs heq h
      match l with
      | [] =>
        rw [gen_while_body_nil] at heq
        exact Option.some.inj heq ▸ h
      | s :: rest =>
        have htail : sizeOf rest < k :=
          Nat.lt_of_lt_of_le (by simp <;> omega) hs
        cases hb : s.isBreak
        · rw [gen_while_body_cons_nonbreak _ _ _ hb] at heq
          split at heq
          · exact Option.noConfusion heq
          · rename_i stA hA
            have hhead : sizeOf s < k :=
              Nat.lt_of_lt_of_le (by simp <;> omega) hs
            exact (ih _ htail).2.2 rest le_rfl heq ((ih _ hhead).1 s le_rfl hA h)
        · have hseq : s = .breakS := by
            cases s <;> first | rfl | exact Bool.noConfusion hb
          subst hseq
          rw [gen_while_body_cons_break] at heq
          dsimp only [] at heq
          split at heq
          · exact Option.noConfusion heq
          · exact (ih _ htail).2.2 rest le_rfl heq (cargs_emit h (by decide))

theorem cargs_gen_stmts (l : List Stmt) {st st2 : Codegen}
    (heq : gen_stmts l st = some st2) (h : CArgsOk st) : CArgsOk st2 :=
  (cargs_gen_stmt_b (sizeOf l)).2.1 l le_rfl heq h

theorem cargs_init : CArgsOk initCodegen := by
  intro ins hins
  simp [initCodegen] at hins

theorem cargs_gen_func {f : Func} {st st2 : Codegen}
    (heq : gen_func f st = some st2) (h : CArgsOk st) : CArgsOk st2 := by
  unfold gen_func at heq
  dsimp only [] at heq
  split at heq
  · exact Option.noConfusion heq
  · rename_i stA hA
    have h1 : CArgsOk stA := cargs_gen_stmts _ hA h
    split at heq
    · exact Option.some.inj heq ▸ cargs_emit h1 (by decide)
    · split at heq
      · exact Option.some.inj heq ▸ cargs_emit h1 (by decide)
      · exact Option.some.inj heq ▸ cargs_emit h1 (by decide)

theorem cargs_gen_funcs (fs : List Func) : ∀ {st st2 : Codegen},
    gen_funcs fs st = some st2 → CArgsOk st → CArgsOk st2 := by
  induction fs with
  | nil =>
    intro st st2 heq h
    simp only [gen_funcs] at heq
    exact Option.some.inj heq ▸ h
  | cons f rest ihf =>
    intro st st2 heq h
    simp only [gen_funcs] at heq
    split at heq
    · exact Option.noConfusion heq
    · rename_i stA hA
      exact ihf heq (cargs_gen_func hA h)


theorem mkVectors_eval (st : Codegen) :
    mkVectors st =
      [(match sGet st.labels "main" with
        | some mo => Instr.mk .JMP ((DEFAULT_NUM_VECTORS + mo : Nat) : Int)
        | none => Instr.mk .JMP 0),
       (match sGet st.labels "irq1" with
        | some ho => Instr.mk .JMP ((DEFAULT_NUM_VECTORS + ho : Nat) : Int)
        | none => Instr.mk .JMP 0),
       (match sGet st.labels "irq2" with
        | some ho => Instr.mk .JMP ((DEFAULT_NUM_VECTORS + ho : Nat) : Int)
        | none => Instr.mk .JMP 0),
       (match sGet st.labels "irq3" with
        | some ho => Instr.mk .JMP ((DEFAULT_NUM_VECTORS + ho : Nat) : Int)
        | none => Instr.mk .JMP 0),
       (match sGet st.labels "irq4" with
        | some ho => Instr.mk .JMP ((DEFAULT_NUM_VECTORS + ho : Nat) : Int)
        | none => Instr.mk .JMP 0),
       (match sGet st.labels "irq5" with
        | some ho => Instr.mk .JMP ((DEFAULT_NUM_VECTORS + ho : Nat) : Int)
        | none => Instr.mk .JMP 0),
       (match sGet st.labels "irq6" with
        | some ho => Instr.mk .JMP ((DEFAULT_NUM_VECTORS + ho : Nat) : Int)
        | none => Instr.mk .JMP 0),
       (match sGet st.labels "irq7" with
        | some ho => Instr.mk .JMP ((DEFAULT_NUM_VECTORS + ho : Nat) : Int)
        | none => Instr.mk .JMP 0)] := rfl

/-- C5. The program image is the 8-entry vector table followed by the
relocated code: `JMP`, `JZ` and `CALL` arguments get
`V = DEFAULT_NUM_VECTORS` added (every generated argument is nonnegative,
so after relocation every such argument is at least `V`); all other
opcodes, in particular `IN`, `OUT` and `PUSHI`, keep their argument
unchanged; vector 0 jumps to `V + main`; vector `i` in `1..V-1` jumps to
`V + irqN` when that label exists and otherwise stays the default `JMP 0`
(address 0 holds vector 0, which jumps to `main`). -/
theorem c5_image_layout (prog : Program) (st : Codegen) (mo : Nat)
    (h : gen_funcs prog.functions initCodegen = some st)
    (hm : sGet st.labels "main" = some mo) :
    gen prog = some (mkVectors st ++ st.code.map relocIns) ∧
    (mkVectors st).length = DEFAULT_NUM_VECTORS ∧
    (mkVectors st ++ st.code.map relocIns).get? 0 =
      some (Instr.mk .JMP ((DEFAULT_NUM_VECTORS + mo : Nat) : Int)) ∧
    (∀ i : Nat, 1 ≤ i → i < DEFAULT_NUM_VECTORS →
      (mkVectors st ++ st.code.map relocIns).get? i =
        some (match sGet st.labels ("irq" ++ toString i) with
          | some ho => Instr.mk .JMP ((DEFAULT_NUM_VECTORS + ho : Nat) : Int)
          | none => Instr.mk .JMP 0)) ∧
    (∀ ins ∈ st.code.map relocIns,
      ins.opcode = .JMP ∨ ins.opcode = .JZ ∨ ins.opcode = .CALL →
        ((DEFAULT_NUM_VECTORS : Nat) : Int) ≤ ins.arg) ∧
    (∀ ins : Instr,
      ins.opcode = .IN ∨ ins.opcode = .OUT ∨ ins.opcode = .PUSHI →
        relocIns ins = ins) := by
  have hc : CArgsOk st := cargs_gen_funcs _ h cargs_init
  refine ⟨?_, ?_, ?_, ?_, ?_, ?_⟩
  · simp only [gen, h]
  · simp [mkVectors, DEFAULT_NUM_VECTORS]
  · rw [mkVectors_eval, hm]
    rfl
  · intro i h1 h8
    have h8n : i < 8 := h8
    interval_cases i <;> (rw [mkVectors_eval]; rfl)
  · intro ins hins hop
    rcases List.mem_map.mp hins with ⟨ins0, hmem0, rfl⟩
    have h0 : 0 ≤ ins0.arg := hc ins0 hmem0
    by_cases hj : ins0.opcode = .JMP ∨ ins0.opcode = .JZ ∨ ins0.opcode = .CALL
    · unfold relocIns
      rw [if_pos hj]
      show ((DEFAULT_NUM_VECTORS : Nat) : Int) ≤
        ins0.arg + ((DEFAULT_NUM_VECTORS : Nat) : Int)
      omega
    · unfold relocIns at hop
      rw [if_neg hj] at hop
      exact absurd hop hj
  · intro ins hop
    have hnj : ¬(ins.opcode = .JMP ∨ ins.opcode = .JZ ∨ ins.opcode = .CALL) := by
      rcases hop with h1 | h1 | h1 <;> rw [h1] <;> decide
    unfold relocIns
    rw [if_neg hnj]

/-- Witness program for C5: a `main` that enables interrupts and an empty
`irq1` handler. -/
def c5prog : Program := ⟨[⟨"main", [Stmt.callS "ei" []]⟩, ⟨"irq1", []⟩]⟩

/-- The generator state after `gen_funcs` on the C5 witness program. -/
def c5st : Codegen :=
  match gen_funcs c5prog.functions initCodegen with
  | some st => st
  | none => initCodegen

/-- Witness for C5: on the concrete two-function program the generator
succeeds, `main` sits at offset 0, and the layout theorem applies. -/
theorem c5_image_layout_witness :
    (gen_funcs c5prog.functions initCodegen = some c5st ∧
      sGet c5st.labels "main" = some 0) ∧
    (gen c5prog = some (mkVectors c5st ++ c5st.code.map relocIns) ∧
    (mkVectors c5st).length = DEFAULT_NUM_VECTORS ∧
    (mkVectors c5st ++ c5st.code.map relocIns).get? 0 =
      some (Instr.mk .JMP ((DEFAULT_NUM_VECTORS + 0 : Nat) : Int)) ∧
    (∀ i : Nat, 1 ≤ i → i < DEFAULT_NUM_VECTORS →
      (mkVectors c5st ++ c5st.code.map relocIns).get? i =
        some (match sGet c5st.labels ("irq" ++ toString i) with
          | some ho => Instr.mk .JMP ((DEFAULT_NUM_VECTORS + ho : Nat) : Int)
          | none => Instr.mk .JMP 0)) ∧
    (∀ ins ∈ c5st.code.map relocIns,
      ins.opcode = .JMP ∨ ins.opcode = .JZ ∨ ins.opcode = .CALL →
        ((DEFAULT_NUM_VECTORS : Nat) : Int) ≤ ins.arg) ∧
    (∀ ins : Instr,
      ins.opcode = .IN ∨ ins.opcode = .OUT ∨ ins.opcode = .PUSHI →
        relocIns ins = ins)) :=
  ⟨⟨by decide, by decide⟩, c5_image_layout c5prog c5st 0 (by decide) (by decide)⟩


end Csa
